import Mathlib

/-!
Verification development for the oled-tools repository, centered on the
oscheck rule-validation engine (`oscheck/core/engine.py` and
`oscheck/core/util.py`), plus the duplicate-instance lock logic of
memtracker (`memtracker.py`, `create_lock`) and lkce
(`tools/lkce/scripts/lkce.py`, `__main__` block).

The Python code is shallowly embedded:
* Python values that can appear in attribute dictionaries and JSON rules
  become the inductive type `Val` (with Python `float` idealized as an
  exact rational; no claim below depends on binary floating-point
  rounding).
* Calls into the Python runtime and the operating system (the `ast`
  parser, `re.search`, the filesystem, hashing, base64, utf-8 decoding)
  become fields of an explicit oracle structure `Env`.
* The mutable `fatal_err` list parameter becomes explicit state passing:
  functions take the current `Option (List String)` and return the
  updated one.  `global_vars` is read-only inside the engine (it is
  written only by `host.py` during startup), so it is an ordinary input.
* Python exceptions become the `Except` monad with error type `PyErr`.
* The recursion of `validate_rule` is implemented with a fuel parameter
  (`vrGo`); `validate_rule` itself supplies fuel that is proved
  sufficient.
-/

namespace OSCheck

/-- Idealized Python number: `int` or `float` (floats modelled as exact
rationals). -/
inductive NumV where
  | intN (n : Int)
  | floatN (q : Rat)
deriving DecidableEq, Repr

/-- Embedded Python/JSON value, as used for attribute dictionaries and
rules in the oscheck engine.  Dictionaries are insertion-ordered
association lists (Python dicts have unique keys; we never construct
duplicates). -/
inductive Val where
  | noneV
  | boolV (b : Bool)
  | intV (n : Int)
  | floatV (q : Rat)
  | strV (s : String)
  | bytesV (s : String)
  | listV (xs : List Val)
  | dictV (xs : List (String × Val))

/-- Python exceptions that the embedded engine code can raise. -/
inductive PyErr where
  | valueError (msg : String)
  | typeError (msg : String)
  | keyError (msg : String)
  | zeroDivisionError (msg : String)
  | attributeError (msg : String)
  | reError (msg : String)
  | unicodeDecodeError (msg : String)
  | fuelExhausted
deriving DecidableEq, Repr

/-- The exceptions caught by `compare`'s `except (TypeError, ValueError)`
clause. -/
def caughtByCompare : PyErr → Bool
  | .typeError _ => true
  | .valueError _ => true
  | _ => false

/-- `str(e)`-style text of an exception, used inside error messages. -/
def errText : PyErr → String
  | .valueError m => m
  | .typeError m => m
  | .keyError m => m
  | .zeroDivisionError m => m
  | .attributeError m => m
  | .reError m => m
  | .unicodeDecodeError m => m
  | .fuelExhausted => "fuel"

/-- Dictionary lookup (first binding, as in a Python dict with unique
keys). -/
def lookupVal (k : String) : List (String × Val) → Option Val
  | [] => Option.none
  | (k2, v) :: rest => if k2 = k then some v else lookupVal k rest

/-- `k in d` for an embedded dict. -/
def containsKey (k : String) (d : List (String × Val)) : Bool :=
  (lookupVal k d).isSome

/-- `global_vars.get(name, default)`. -/
def getVarD (gv : List (String × Val)) (name : String) (dflt : Val) : Val :=
  (lookupVal name gv).getD dflt

/-- `isinstance(v, (int, float))` — Python `bool` is a subclass of
`int`, so it counts. -/
def isNumLike : Val → Bool
  | .boolV _ => true
  | .intV _ => true
  | .floatV _ => true
  | _ => false

/-- `isinstance(v, int)` (including `bool`). -/
def isIntLike : Val → Bool
  | .boolV _ => true
  | .intV _ => true
  | _ => false

/-- Numeric value of a number-like `Val` (used for Python's cross-type
numeric comparisons; `True == 1`). -/
def numOf : Val → Rat
  | .boolV b => if b then 1 else 0
  | .intV n => (n : Rat)
  | .floatV q => q
  | _ => 0

/-- Integer value of an int-like `Val`. -/
def intOf : Val → Int
  | .boolV b => if b then 1 else 0
  | .intV n => n
  | _ => 0

/-- `type(v).__name__`. -/
def typeName : Val → String
  | .noneV => "NoneType"
  | .boolV _ => "bool"
  | .intV _ => "int"
  | .floatV _ => "float"
  | .strV _ => "str"
  | .bytesV _ => "bytes"
  | .listV _ => "list"
  | .dictV _ => "dict"

mutual

/-- Python `==` on embedded values: numbers compare numerically across
`bool`/`int`/`float`; strings, bytes, lists and dicts structurally;
everything else cross-type unequal. -/
def pyEq : Val → Val → Bool
  | .noneV, .noneV => true
  | .boolV a, b => if isNumLike b then numOf (.boolV a) == numOf b else false
  | .intV a, b => if isNumLike b then numOf (.intV a) == numOf b else false
  | .floatV a, b => if isNumLike b then numOf (.floatV a) == numOf b else false
  | .strV a, .strV b => a == b
  | .bytesV a, .bytesV b => a == b
  | .listV a, .listV b => pyEqList a b
  | .dictV a, .dictV b => a.length == b.length && pyEqDict a b
  | _, _ => false

/-- Elementwise Python `==` on lists. -/
def pyEqList : List Val → List Val → Bool
  | [], [] => true
  | x :: xs, y :: ys => pyEq x y && pyEqList xs ys
  | _, _ => false

/-- Every entry of the first dict is present, with `==` value, in the
second (with equal lengths and unique keys this is Python dict
equality). -/
def pyEqDict : List (String × Val) → List (String × Val) → Bool
  | [], _ => true
  | (k, v) :: rest, ys =>
    (match lookupVal k ys with
     | some w => pyEq v w
     | Option.none => false) && pyEqDict rest ys

end

/-! Python string rendering (`str()` / `repr()`) -/

/-- Number of decimal digits needed to write `q` exactly, if at most 64
(Python floats always have a finite decimal expansion). -/
def decDigits (q : Rat) : Option Nat :=
  (List.range 65).find? (fun k => (q * (10 : Rat) ^ k).den = 1)

/-- Decimal rendering of a nonnegative rational with exactly `k` digits
after the point. -/
def decRender (a : Rat) (k : Nat) : String :=
  let scaled : Int := (a * (10 : Rat) ^ k).num
  let ip : Int := scaled / (10 : Int) ^ k
  let frac : Int := scaled % (10 : Int) ^ k
  let fs := toString frac.natAbs
  let pad := String.mk (List.replicate (k - fs.length) '0') ++ fs
  toString ip ++ "." ++ pad

/-- `str()` of an (idealized) Python float. -/
def pyFloatStr (q : Rat) : String :=
  let sign := if q < 0 then "-" else ""
  let a := |q|
  match decDigits a with
  | some 0 => sign ++ toString a.num ++ ".0"
  | some k => sign ++ decRender a k
  | Option.none => sign ++ toString a.num ++ "/" ++ toString a.den

/-- ASCII lower-casing (`str.lower()`), character-list based so that it
reduces definitionally. -/
def pyLower (s : String) : String :=
  String.mk (s.data.map Char.toLower)

mutual

/-- Python `str()` of an embedded value. -/
def pyStr : Val → String
  | .noneV => "None"
  | .boolV b => if b then "True" else "False"
  | .intV n => toString n
  | .floatV q => pyFloatStr q
  | .strV s => s
  | .bytesV s => "b\x27" ++ s ++ "\x27"
  | .listV xs => "[" ++ pyReprList xs ++ "]"
  | .dictV xs => "\x7b" ++ pyReprDict xs ++ "\x7d"

/-- Comma-joined reprs of list elements (strings quoted, as `repr`
does). -/
def pyReprList : List Val → String
  | [] => ""
  | [x] =>
    (match x with
     | .strV s => "\x27" ++ s ++ "\x27"
     | v => pyStr v)
  | x :: rest =>
    (match x with
     | .strV s => "\x27" ++ s ++ "\x27"
     | v => pyStr v) ++ ", " ++ pyReprList rest

/-- Comma-joined reprs of dict entries. -/
def pyReprDict : List (String × Val) → String
  | [] => ""
  | [(k, v)] =>
    "\x27" ++ k ++ "\x27: " ++
      (match v with
       | .strV s => "\x27" ++ s ++ "\x27"
       | w => pyStr w)
  | (k, v) :: rest =>
    "\x27" ++ k ++ "\x27: " ++
      (match v with
       | .strV s => "\x27" ++ s ++ "\x27"
       | w => pyStr w) ++ ", " ++ pyReprDict rest

end

/-- Python `repr()` of a value. -/
def pyRepr : Val → String
  | .strV s => "\x27" ++ s ++ "\x27"
  | v => pyStr v

/-- Python whitespace for `str.strip()`. -/
def isPyWs (c : Char) : Bool :=
  c = ' ' || c = '\t' || c = '\n' || c = '\r' || c.toNat = 11 || c.toNat = 12

/-- `str.strip()`. -/
def pyStrip (s : String) : String :=
  String.mk (((s.data.dropWhile isPyWs).reverse.dropWhile isPyWs).reverse)

/-! Python numeric string parsing (`int()` / `float()`) -/

/-- Parse a run of decimal digits possibly separated by single
underscores (as Python numeric literals and `int()` allow), returning
the value and the number of digits; `Option.none` on malformed input.
The accumulator carries (value so far, digit count so far). -/
def digitsCore : List Char → Nat → Nat → Option (Nat × Nat)
  | [], acc, cnt => some (acc, cnt)
  | '_' :: c :: rest, acc, cnt =>
    if c.isDigit then digitsCore rest (acc * 10 + (c.toNat - '0'.toNat)) (cnt + 1)
    else Option.none
  | '_' :: [], _, _ => Option.none
  | c :: rest, acc, cnt =>
    if c.isDigit then digitsCore rest (acc * 10 + (c.toNat - '0'.toNat)) (cnt + 1)
    else Option.none

/-- Nonempty underscored digit run. -/
def parseDigits (cs : List Char) : Option (Nat × Nat) :=
  match cs with
  | c :: rest =>
    if c.isDigit then digitsCore rest (c.toNat - '0'.toNat) 1 else Option.none
  | [] => Option.none

/-- `str.strip()` at the character-list level. -/
def stripChars (cs : List Char) : List Char :=
  ((cs.dropWhile isPyWs).reverse.dropWhile isPyWs).reverse

/-- Python `int(s)`: optional surrounding whitespace, optional sign,
underscored digit run. -/
def pyInt (s : String) : Option Int :=
  let cs := stripChars s.data
  match cs with
  | '+' :: rest => (parseDigits rest).map (fun p => (p.1 : Int))
  | '-' :: rest => (parseDigits rest).map (fun p => -(p.1 : Int))
  | rest => (parseDigits rest).map (fun p => (p.1 : Int))

/-- Split a character list at the first `e`/`E` (exponent marker). -/
def splitExp : List Char → List Char × Option (List Char)
  | [] => ([], Option.none)
  | c :: rest =>
    if c = 'e' || c = 'E' then ([], some rest)
    else
      let (m, e) := splitExp rest
      (c :: m, e)

/-- Split a character list at the first `.`. -/
def splitDot : List Char → List Char × Option (List Char)
  | [] => ([], Option.none)
  | c :: rest =>
    if c = '.' then ([], some rest)
    else
      let (m, e) := splitDot rest
      (c :: m, e)

/-- Parse the mantissa of a Python float literal: `digits`, `digits.`,
`digits.digits` or `.digits`. -/
def parseMantissa (cs : List Char) : Option Rat :=
  let (ip, fp?) := splitDot cs
  match fp? with
  | Option.none => (parseDigits ip).map (fun p => (p.1 : Rat))
  | some fp =>
    match ip, fp with
    | [], [] => Option.none
    | [], _ =>
      (parseDigits fp).map (fun p => (p.1 : Rat) / (10 : Rat) ^ p.2)
    | _, [] => (parseDigits ip).map (fun p => (p.1 : Rat))
    | _, _ =>
      match parseDigits ip, parseDigits fp with
      | some pi, some pf => some ((pi.1 : Rat) + (pf.1 : Rat) / (10 : Rat) ^ pf.2)
      | _, _ => Option.none

/-- Parse an exponent: optional sign then digits. -/
def parseExp (cs : List Char) : Option Int :=
  match cs with
  | '+' :: rest => (parseDigits rest).map (fun p => (p.1 : Int))
  | '-' :: rest => (parseDigits rest).map (fun p => -(p.1 : Int))
  | rest => (parseDigits rest).map (fun p => (p.1 : Int))

/-- Python `float(s)` for finite decimal forms (`inf`/`nan` are omitted:
they cannot occur on the engine's conversion path, which requires a `.`
in the string). -/
def pyFloat (s : String) : Option Rat :=
  let cs := stripChars s.data
  let (body, sign) : List Char × Rat :=
    match cs with
    | '+' :: rest => (rest, 1)
    | '-' :: rest => (rest, -1)
    | rest => (rest, 1)
  let (mant, exp?) := splitExp body
  match parseMantissa mant with
  | Option.none => Option.none
  | some m =>
    match exp? with
    | Option.none => some (sign * m)
    | some ecs =>
      match parseExp ecs with
      | some e => some (sign * m * (10 : Rat) ^ (e : Int))
      | Option.none => Option.none

/-! `$variable` substitution in `eval_expr` -/

/-- First character of a `$name` token: `[a-zA-Z_]`. -/
def identStartCh (c : Char) : Bool := c.isAlpha || c = '_'

/-- Subsequent characters: `[a-zA-Z0-9_]`. -/
def identCh (c : Char) : Bool := identStartCh c || c.isDigit

/-- The list of global variables (`engine.global_vars`), an input here:
the engine only reads it (it is populated by `host.py` before rule
evaluation). -/
abbrev GlobalVars := List (String × Val)

/-- `replace_var` from `eval_expr`: the global scope first, then the
local scope (`value` bound to the left-side value) when the global entry
is missing or stringifies to the empty string. -/
def replaceVar (gv : GlobalVars) (value : Val) (name : String) : String :=
  let ret := pyStr (getVarD gv name (.strV ""))
  if ret = "" then pyStr (if name = "value" then value else .strV "") else ret

/-- One pass of `re.sub(r"\$([a-zA-Z_][a-zA-Z0-9_]*)", replace_var, expr)`:
leftmost non-overlapping maximal matches, replacements not rescanned.
Fuel is the remaining length; each step consumes at least one
character. -/
def substGo (gv : GlobalVars) (value : Val) : Nat → List Char → List Char
  | 0, cs => cs
  | _ + 1, [] => []
  | n + 1, '$' :: rest =>
    (match rest with
     | c :: rest2 =>
       if identStartCh c then
         let nameCs := c :: rest2.takeWhile identCh
         let rest3 := rest2.dropWhile identCh
         (replaceVar gv value (String.mk nameCs)).data ++ substGo gv value n rest3
       else '$' :: substGo gv value n (c :: rest2)
     | [] => ['$'])
  | n + 1, c :: rest => c :: substGo gv value n rest

/-- The `$name` substitution performed at the top of `eval_expr`. -/
def substVars (gv : GlobalVars) (value : Val) (expr : String) : String :=
  String.mk (substGo gv value expr.data.length expr.data)

/-! The restricted AST evaluator (`eval_expr` / `VALID_OPS`) -/

/-- Binary operator AST nodes.  `matMultB` (`@`) exists in Python's AST
but is not a key of `VALID_OPS`. -/
inductive BOp where
  | addB | subB | multB | divB | floorDivB | modB | powB
  | lshiftB | rshiftB | bitAndB | bitOrB | bitXorB | matMultB
deriving DecidableEq, Repr

/-- Unary operator AST nodes.  Only `uaddU`/`usubU` are in `VALID_OPS`;
`invertU` (`~`) and `notU` (`not`) are not. -/
inductive UOp where
  | uaddU | usubU | invertU | notU
deriving DecidableEq, Repr

/-- Post-substitution Python expression AST, as produced by
`ast.parse(expr, mode="eval")` (the `Expression` wrapper is elided).
Constructs beyond numbers and unary/binary operations are carried
with just enough data to name them. -/
inductive Ast where
  | num (n : NumV)
  | binOp (op : BOp) (l r : Ast)
  | unaryOp (op : UOp) (e : Ast)
  | nameA (id : String)
  | callA
  | attributeA
  | compareA
  | constStrA (s : String)
  | otherA (tyName : String)
deriving DecidableEq, Repr

/-- `type(node.op).__name__` for binary operators. -/
def bopName : BOp → String
  | .addB => "Add" | .subB => "Sub" | .multB => "Mult" | .divB => "Div"
  | .floorDivB => "FloorDiv" | .modB => "Mod" | .powB => "Pow"
  | .lshiftB => "LShift" | .rshiftB => "RShift" | .bitAndB => "BitAnd"
  | .bitOrB => "BitOr" | .bitXorB => "BitXor" | .matMultB => "MatMult"

/-- `type(node.op).__name__` for unary operators. -/
def uopName : UOp → String
  | .uaddU => "UAdd" | .usubU => "USub" | .invertU => "Invert" | .notU => "Not"

/-- `type(node).__name__` for the unsupported-node error message. -/
def astKindName : Ast → String
  | .num _ => "Num"
  | .binOp _ _ _ => "BinOp"
  | .unaryOp _ _ => "UnaryOp"
  | .nameA _ => "Name"
  | .callA => "Call"
  | .attributeA => "Attribute"
  | .compareA => "Compare"
  | .constStrA _ => "Constant"
  | .otherA s => s

/-- Oracles for the Python runtime and operating system facilities the
engine calls into: `ast.parse`, `re.search`, `os.path.exists`, reading a
file (`get_file_contents`), `hashlib.sha256`, `base64.b64decode(...)
.decode()`, `bytes.decode("utf-8")`, and real-valued `**` for the float
cases an exact rational cannot represent.  Oracles taking `Val` absorb
the exceptions those calls raise on ill-typed arguments. -/
structure Env where
  parse : String → Except String Ast
  regexSearch : String → String → Except String Bool
  pathExists : Val → Except String Bool
  readBytes : Val → Except String String
  sha256hex : String → String
  b64decode : Val → Except String String
  utf8decode : String → Except String String
  rpow : Rat → Rat → Rat

/-- Is the number a float? -/
def isFl : NumV → Bool
  | .floatN _ => true
  | .intN _ => false

/-- Rational value of a number. -/
def ratOf : NumV → Rat
  | .intN n => (n : Rat)
  | .floatN q => q

/-- `operator.add`. -/
def numAdd : NumV → NumV → NumV
  | .intN a, .intN b => .intN (a + b)
  | a, b => .floatN (ratOf a + ratOf b)

/-- `operator.sub`. -/
def numSub : NumV → NumV → NumV
  | .intN a, .intN b => .intN (a - b)
  | a, b => .floatN (ratOf a - ratOf b)

/-- `operator.mul`. -/
def numMul : NumV → NumV → NumV
  | .intN a, .intN b => .intN (a * b)
  | a, b => .floatN (ratOf a * ratOf b)

/-- `operator.truediv`: always a float; raises on a zero divisor. -/
def numDiv (a b : NumV) : Except PyErr NumV :=
  if ratOf b = 0 then .error (.zeroDivisionError "division by zero")
  else .ok (.floatN (ratOf a / ratOf b))

/-- `operator.floordiv` (Python `//` floors; sign of Python results
follows the floor convention). -/
def numFloorDiv (a b : NumV) : Except PyErr NumV :=
  if ratOf b = 0 then
    .error (.zeroDivisionError "integer division or modulo by zero")
  else
    match a, b with
    | .intN x, .intN y => .ok (.intN (Int.fdiv x y))
    | _, _ => .ok (.floatN ((⌊ratOf a / ratOf b⌋ : Int) : Rat))

/-- `operator.mod` (result sign follows the divisor, as in Python). -/
def numMod (a b : NumV) : Except PyErr NumV :=
  if ratOf b = 0 then
    .error (.zeroDivisionError "integer division or modulo by zero")
  else
    match a, b with
    | .intN x, .intN y => .ok (.intN (Int.fmod x y))
    | _, _ =>
      .ok (.floatN (ratOf a - ratOf b * ((⌊ratOf a / ratOf b⌋ : Int) : Rat)))

/-- `operator.pow`.  Integer exponents are exact; a fractional exponent
falls back to the `rpow` oracle. -/
def numPow (env : Env) (a b : NumV) : Except PyErr NumV :=
  match a, b with
  | .intN x, .intN e =>
    if 0 ≤ e then .ok (.intN (x ^ e.toNat))
    else if x = 0 then
      .error (.zeroDivisionError "0.0 cannot be raised to a negative power")
    else .ok (.floatN ((x : Rat) ^ (e : Int)))
  | _, _ =>
    let br := ratOf a
    let er := ratOf b
    if er.den = 1 then
      if br = 0 ∧ er < 0 then
        .error (.zeroDivisionError "0.0 cannot be raised to a negative power")
      else .ok (.floatN (br ^ er.num))
    else .ok (.floatN (env.rpow br er))

/-- `operator.lshift`: integers only. -/
def numLShift (a b : NumV) : Except PyErr NumV :=
  match a, b with
  | .intN x, .intN y =>
    if y < 0 then .error (.valueError "negative shift count")
    else .ok (.intN (x * (2 : Int) ^ y.toNat))
  | _, _ =>
    .error (.typeError "unsupported operand type(s) for <<")

/-- `operator.rshift`: integers only, arithmetic (floor) shift. -/
def numRShift (a b : NumV) : Except PyErr NumV :=
  match a, b with
  | .intN x, .intN y =>
    if y < 0 then .error (.valueError "negative shift count")
    else .ok (.intN (Int.fdiv x ((2 : Int) ^ y.toNat)))
  | _, _ =>
    .error (.typeError "unsupported operand type(s) for >>")

/-- `operator.and_`/`or_`/`xor` on integers (two's-complement, matching
Python's bignum semantics); floats raise `TypeError`. -/
def numBitOp (f : Int → Int → Int) (sym : String) (a b : NumV) :
    Except PyErr NumV :=
  match a, b with
  | .intN x, .intN y => .ok (.intN (f x y))
  | _, _ => .error (.typeError ("unsupported operand type(s) for " ++ sym))

/-- `VALID_OPS` restricted to binary operators: the callable for an
operator class, or `Option.none` when the class is not a key (then the
subscript raises `KeyError`). -/
def validOpsB : BOp → Option (Env → NumV → NumV → Except PyErr NumV)
  | .addB => some (fun _ a b => .ok (numAdd a b))
  | .subB => some (fun _ a b => .ok (numSub a b))
  | .multB => some (fun _ a b => .ok (numMul a b))
  | .divB => some (fun _ => numDiv)
  | .floorDivB => some (fun _ => numFloorDiv)
  | .modB => some (fun _ => numMod)
  | .powB => some numPow
  | .lshiftB => some (fun _ => numLShift)
  | .rshiftB => some (fun _ => numRShift)
  | .bitAndB => some (fun _ => numBitOp Int.land "&")
  | .bitOrB => some (fun _ => numBitOp Int.lor "|")
  | .bitXorB => some (fun _ => numBitOp Int.xor "^")
  | .matMultB => Option.none

/-- `operator.pos` / `operator.neg`. -/
def uApply : UOp → NumV → NumV
  | .uaddU, a => a
  | .usubU, .intN n => .intN (-n)
  | .usubU, .floatN q => .floatN (-q)
  | _, a => a

/-- `VALID_OPS` restricted to unary operators. -/
def validOpsU : UOp → Option (NumV → NumV)
  | .uaddU => some (uApply .uaddU)
  | .usubU => some (uApply .usubU)
  | .invertU => Option.none
  | .notU => Option.none

/-- `eval_node` from `eval_expr`: numbers, unary and binary operations
with `VALID_OPS` lookup (the subscript is evaluated before the
operands, so an unknown operator class raises `KeyError` first); every
other node kind raises `ValueError`. -/
def evalNode (env : Env) : Ast → Except PyErr NumV
  | .num n => .ok n
  | .binOp op l r =>
    match validOpsB op with
    | some f => do
      let a ← evalNode env l
      let b ← evalNode env r
      f env a b
    | Option.none => .error (.keyError ("<class \x27ast." ++ bopName op ++ "\x27>"))
  | .unaryOp op x =>
    match validOpsU op with
    | some f => do
      let a ← evalNode env x
      .ok (f a)
    | Option.none => .error (.keyError ("<class \x27ast." ++ uopName op ++ "\x27>"))
  | t => .error (.valueError ("Unsupported node type: " ++ astKindName t))

/-- `eval_expr(expr, value)`: substitute `$name` tokens, parse (a
`SyntaxError` is re-raised as `ValueError`), then walk the tree with
`eval_node`. -/
def eval_expr (env : Env) (gv : GlobalVars) (expr : String) (value : Val) :
    Except PyErr NumV :=
  let expr2 := substVars gv value expr
  match env.parse expr2 with
  | .error e =>
    .error (.valueError ("Invalid expression syntax for " ++ expr2 ++ ": " ++ e))
  | .ok tree => evalNode env tree

/-! `compare_file_contents` and `compute_hash_from_str` (util.py) -/

/-- Python truthiness of an embedded value (used by `if result:` on
plugin results, `if not contents:` in `compute_hash_from_str`, and
`if fatal_err:` / `if block_fatal:`). -/
def pyTruthy : Val → Bool
  | .noneV => false
  | .boolV b => b
  | .intV n => n ≠ 0
  | .floatV q => q ≠ 0
  | .strV s => s ≠ ""
  | .bytesV s => s ≠ ""
  | .listV xs => !xs.isEmpty
  | .dictV xs => !xs.isEmpty

/-- `compare_file_contents(expected, actual)` from `util.py`: bytes
compare exactly, strings compare stripped; a bytes/str mix decodes the
bytes side; any other type raises `AttributeError` (no `.decode` /
`.strip`). -/
def compare_file_contents (env : Env) (expected actual : Val) :
    Except PyErr Bool :=
  match actual, expected with
  | .bytesV a, .bytesV e => .ok (a == e)
  | .strV a, .strV e => .ok (pyStrip a == pyStrip e)
  | .bytesV a, e =>
    match env.utf8decode a with
    | .error m => .error (.unicodeDecodeError m)
    | .ok a2 =>
      match e with
      | .strV es => .ok (pyStrip a2 == pyStrip es)
      | _ =>
        .error (.attributeError
          ("\x27" ++ typeName e ++ "\x27 object has no attribute \x27strip\x27"))
  | a, e =>
    match e with
    | .bytesV eb =>
      match env.utf8decode eb with
      | .error m => .error (.unicodeDecodeError m)
      | .ok e2 =>
        match a with
        | .strV a2 => .ok (pyStrip a2 == pyStrip e2)
        | _ =>
          .error (.attributeError
            ("\x27" ++ typeName a ++ "\x27 object has no attribute \x27strip\x27"))
    | _ =>
      .error (.attributeError
        ("\x27" ++ typeName e ++ "\x27 object has no attribute \x27decode\x27"))

/-- `compute_hash_from_str` from `util.py`: `None` for falsy contents,
otherwise the SHA256 hex digest (hashing a non-str/bytes value raises,
which the function catches, returning `None`). -/
def compute_hash_from_str (env : Env) (contents : Val) : Option String :=
  if !(pyTruthy contents) then Option.none
  else
    match contents with
    | .strV s => some (env.sha256hex s)
    | .bytesV s => some (env.sha256hex s)
    | _ => Option.none

/-! `compare_identical` -/

/-- The fe-independent outcome of `compare_identical`: pass, silent
fail, fail with a message appended under `if fatal_err is not None:`,
fail with a message appended under the truthiness test `if fatal_err:`,
or an uncaught exception. -/
inductive IdentRes where
  | crashI (e : PyErr)
  | passI
  | failSilentI
  | failNotNoneI (m : String)
  | failTruthyI (m : String)
deriving Repr

/-- `fatal_err.append(m)` under `if fatal_err is not None:`. -/
def appendNotNone (fe : Option (List String)) (m : String) :
    Option (List String) :=
  fe.map (fun l => l ++ [m])

/-- `fatal_err.append(m)` under the truthiness test `if fatal_err:`
(appends only when the list exists and is nonempty). -/
def appendTruthy (fe : Option (List String)) (m : String) :
    Option (List String) :=
  match fe with
  | some l => if l.isEmpty then some l else some (l ++ [m])
  | Option.none => Option.none

/-- `compare_identical(value, expected, attribute, context)` as a pure
decision (its branching never reads `fatal_err`). -/
def identDecision (env : Env) (value expected : Val)
    (attrName context : String) : IdentRes :=
  match expected with
  | .dictV d =>
    match lookupVal "type" d, lookupVal "value" d with
    | some tv, some identVal =>
      match tv with
      | .strV t =>
        let identType := pyLower t
        if !(match value with
             | .strV _ => true
             | .bytesV _ => true
             | _ => false) then
          .failTruthyI (context ++ ": " ++ attrName ++
            " - Expected string or bytes, got " ++ typeName value ++ ": " ++
            pyStr value)
        else if identType = "file" then
          match env.pathExists identVal with
          | .error m => .crashI (.typeError m)
          | .ok false =>
            .failNotNoneI (context ++ ": " ++ attrName ++
              " - Reference file \x27" ++ pyStr identVal ++
              "\x27 does not exist.")
          | .ok true =>
            match env.readBytes identVal with
            | .error m =>
              .failNotNoneI (context ++ ": " ++ attrName ++
                " - Failed to read file \x27" ++ pyStr identVal ++ "\x27: " ++
                m ++ ".")
            | .ok contents =>
              match compare_file_contents env value (.bytesV contents) with
              | .ok true => .passI
              | .ok false => .failSilentI
              | .error e => .crashI e
        else if identType = "base64" then
          match (do
              let dec ← env.b64decode identVal
              (match compare_file_contents env (.strV dec) value with
               | .ok b => Except.ok b
               | .error e2 => Except.error (errText e2))) with
          | .ok true => .passI
          | .ok false => .failSilentI
          | .error m =>
            .failNotNoneI (context ++ ": " ++ attrName ++
              " - Error decoding base64 string: " ++ m)
        else if identType = "sha256" then
          match compute_hash_from_str env value with
          | Option.none =>
            .failNotNoneI ("Unable to get sha256sum for " ++ context)
          | some h => if pyEq (.strV h) identVal then .passI else .failSilentI
        else if identType = "string" then
          match compare_file_contents env value identVal with
          | .ok true => .passI
          | .ok false => .failSilentI
          | .error e => .crashI e
        else
          .failNotNoneI (context ++ ": " ++ attrName ++
            " - Invalid identical type: " ++ identType)
      | .bytesV t =>
        if !(match value with
             | .strV _ => true
             | .bytesV _ => true
             | _ => false) then
          .failTruthyI (context ++ ": " ++ attrName ++
            " - Expected string or bytes, got " ++ typeName value ++ ": " ++
            pyStr value)
        else
          .failNotNoneI (context ++ ": " ++ attrName ++
            " - Invalid identical type: " ++ pyStr (.bytesV (pyLower t)))
      | _ =>
        .crashI (.attributeError
          ("\x27" ++ typeName tv ++ "\x27 object has no attribute \x27lower\x27"))
    | _, _ =>
      .failTruthyI (context ++ ": " ++ attrName ++ " : Expected dict, got " ++
        pyStr expected)
  | _ =>
    .failTruthyI (context ++ ": " ++ attrName ++ " : Expected dict, got " ++
      pyStr expected)

/-- `compare_identical` with its `fatal_err` effect applied. -/
def compare_identical (env : Env) (value expected : Val)
    (attrName context : String) (fatalErr : Option (List String)) :
    Except PyErr (Bool × Option (List String)) :=
  match identDecision env value expected attrName context with
  | .crashI e => .error e
  | .passI => .ok (true, fatalErr)
  | .failSilentI => .ok (false, fatalErr)
  | .failNotNoneI m => .ok (false, appendNotNone fatalErr m)
  | .failTruthyI m => .ok (false, appendTruthy fatalErr m)

/-! `compare` -/

/-- Plugin-supplied operator table (`plugin_ops`): pure functions that
may raise. -/
abbrev POps := List (String × (Val → Val → Except String Val))

/-- Lookup in the plugin operator table (`op in plugin_ops` — on an
empty/None table this is always a miss, matching
`if plugin_ops and op in plugin_ops:`). -/
def lookupFn (k : String) : POps → Option (Val → Val → Except String Val)
  | [] => Option.none
  | (k2, f) :: rest => if k2 = k then some f else lookupFn k rest

/-- Number to value (the result of an `expr` evaluation replacing
`expected`). -/
def numToVal : NumV → Val
  | .intN n => .intV n
  | .floatN q => .floatV q

/-- The `"expr"` stage of `compare`: when `expected` is a dict
containing `"expr"`, replace it by `eval_expr(expected["expr"], val)`
(a non-string expression raises inside `re.sub`, caught by the same
`except Exception`). -/
def exprStage (env : Env) (gv : GlobalVars) (expected0 val : Val) :
    Except PyErr Val :=
  match expected0 with
  | .dictV d =>
    match lookupVal "expr" d with
    | some (.strV s) =>
      match eval_expr env gv s val with
      | .ok n => .ok (numToVal n)
      | .error e => .error e
    | some _ => .error (.typeError "expected string or bytes-like object")
    | Option.none => .ok expected0
  | _ => .ok expected0

/-- The string-to-number conversion in `compare`
(`val = float(val) if '.' in val else int(val)` when `val` is a string
and `expected` is numeric). -/
def convertVal (val expected : Val) : Except PyErr Val :=
  match val with
  | .strV s =>
    if isNumLike expected then
      if s.data.contains '.' then
        match pyFloat s with
        | some q => .ok (.floatV q)
        | Option.none =>
          .error (.valueError
            ("could not convert string to float: \x27" ++ s ++ "\x27"))
      else
        match pyInt s with
        | some n => .ok (.intV n)
        | Option.none =>
          .error (.valueError
            ("invalid literal for int() with base 10: \x27" ++ s ++ "\x27"))
    else .ok (.strV s)
  | v => .ok v

/-- `val is None`. -/
def valIsNone : Val → Bool
  | .noneV => true
  | _ => false

/-- Does the first list start with the second? -/
def startsWithLC : List Char → List Char → Bool
  | _, [] => true
  | [], _ :: _ => false
  | a :: as0, b :: bs => a = b && startsWithLC as0 bs

/-- Substring search on character lists. -/
def substrLC (s t : List Char) : Bool :=
  startsWithLC s t ||
    match s with
    | [] => false
    | _ :: rest => substrLC rest t

/-- Python `needle in haystack` for strings (substring test). -/
def strContains (haystack needle : String) : Bool :=
  substrLC haystack.data needle.data

/-- The built-in operator names handled by `compare`'s dispatch chain
(`identical` is handled separately, before conversion). -/
def isBuiltinOp (op : String) : Bool :=
  ["eq", "ne", "gt", "ge", "lt", "le", "bitwise_and", "exists", "contains",
   "regex"].contains op

/-- The dispatch chain of `compare` for built-in operators (after the
`identical` branch and string-to-number conversion). -/
def evalBuiltin (env : Env) (op : String) (val expected : Val) :
    Except PyErr Bool :=
  if op = "eq" then .ok (pyEq val expected)
  else if op = "ne" then .ok (!(pyEq val expected))
  else if op = "gt" then
    .ok (isNumLike val && isNumLike expected && decide (numOf val > numOf expected))
  else if op = "ge" then
    .ok (isNumLike val && isNumLike expected && decide (numOf val ≥ numOf expected))
  else if op = "lt" then
    .ok (isNumLike val && isNumLike expected && decide (numOf val < numOf expected))
  else if op = "le" then
    .ok (isNumLike val && isNumLike expected && decide (numOf val ≤ numOf expected))
  else if op = "bitwise_and" then
    if isIntLike val then
      if isIntLike expected then
        .ok (pyEq (.intV (Int.land (intOf val) (intOf expected))) expected)
      else
        .error (.typeError ("unsupported operand type(s) for &: \x27int\x27 and \x27"
          ++ typeName expected ++ "\x27"))
    else .ok false
  else if op = "exists" then
    .ok (pyEq (.boolV (!(valIsNone val))) expected)
  else if op = "contains" then
    match val with
    | .strV s =>
      match expected with
      | .strV t => .ok (strContains s t)
      | _ =>
        .error (.typeError
          ("\x27in <string>\x27 requires string as left operand, not " ++
            typeName expected))
    | .listV xs => .ok (xs.any (fun x => pyEq x expected))
    | _ => .ok false
  else if op = "regex" then
    if valIsNone val then .ok false
    else
      match expected with
      | .strV pat =>
        match env.regexSearch pat (pyStr val) with
        | .ok b => .ok b
        | .error m => .error (.reError m)
      | _ => .ok false
  else .error (.typeError "unreachable: guarded by isBuiltinOp")

/-- How a `compare` loop iteration touches `fatal_err`: no message, a
message under `if fatal_err is not None:`, or a message under the
truthiness test `if fatal_err:`. -/
inductive AppendMode where
  | noMsg
  | amNotNone (m : String)
  | amTruthy (m : String)
deriving Repr

/-- Apply an `AppendMode` to the current `fatal_err`. -/
def applyMode (fe : Option (List String)) : AppendMode → Option (List String)
  | .noMsg => fe
  | .amNotNone m => appendNotNone fe m
  | .amTruthy m => appendTruthy fe m

/-- The fe-independent outcome of one iteration of `compare`'s operator
loop: an uncaught exception, `return False` (with the branch's append
mode), or continue with the (possibly converted) value and this
operator's result (with the append mode of a caught exception, if
any). -/
inductive OpOut where
  | crashO (e : PyErr)
  | retFalseO (mode : AppendMode)
  | contO (newVal : Val) (result : Bool) (mode : AppendMode)

/-- Message of the `except (TypeError, ValueError)` handler in
`compare`. -/
def catchMsg (context attr op : String) (e : PyErr) (val expected : Val) :
    String :=
  context ++ ": " ++ attr ++ " - Type mismatch error for " ++ op ++ ": " ++
    errText e ++ " (value=" ++ pyStr val ++ ", expected=" ++ pyStr expected ++ ")"

/-- One iteration of `compare`'s `for op, expected in rule.items():`
loop, as a pure decision: lower-case the operator, run the `expr`
stage, plugin operators, `identical`, string-to-number conversion, and
the built-in dispatch chain, applying the surrounding
`except (TypeError, ValueError)` where the source does. -/
def compareOpDecision (env : Env) (gv : GlobalVars) (pops : POps)
    (attr context : String) (opRaw : String) (expected0 val : Val) : OpOut :=
  let op := pyLower opRaw
  match exprStage env gv expected0 val with
  | .error e =>
    .retFalseO (.amNotNone (context ++ ": " ++ attr ++
      " - Error evaluating expression: " ++ errText e))
  | .ok expected =>
    match lookupFn op pops with
    | some f =>
      match f val expected with
      | .ok r => .contO val (pyTruthy r) .noMsg
      | .error m =>
        .retFalseO (.amTruthy (context ++ ": " ++ attr ++
          ": Error in plugin op " ++ op ++ ": " ++ m))
    | Option.none =>
      if op = "identical" then
        match identDecision env val expected attr context with
        | .crashI e =>
          if caughtByCompare e then
            .contO val false (.amNotNone (catchMsg context attr op e val expected))
          else .crashO e
        | .passI => .contO val true .noMsg
        | .failSilentI => .contO val false .noMsg
        | .failNotNoneI m => .contO val false (.amNotNone m)
        | .failTruthyI m => .contO val false (.amTruthy m)
      else
        match convertVal val expected with
        | .error e =>
          .contO val false (.amNotNone (catchMsg context attr op e val expected))
        | .ok val2 =>
          if isBuiltinOp op then
            match evalBuiltin env op val2 expected with
            | .ok r => .contO val2 r .noMsg
            | .error e =>
              if caughtByCompare e then
                .contO val2 false
                  (.amNotNone (catchMsg context attr op e val2 expected))
              else .crashO e
          else
            .retFalseO (.amNotNone (context ++ ": " ++ attr ++
              " - Unknown comparison operator: " ++ op))

/-- The operator loop of `compare`, threading the possibly converted
`val`, the running `success` flag, and `fatal_err`. -/
def compareItems (env : Env) (gv : GlobalVars) (pops : POps)
    (attr context : String) :
    List (String × Val) → Val → Bool → Option (List String) →
    Except PyErr (Bool × Option (List String))
  | [], _, success, fe => .ok (success, fe)
  | (k, e0) :: rest, val, success, fe =>
    match compareOpDecision env gv pops attr context k e0 val with
    | .crashO er => .error er
    | .retFalseO mode => .ok (false, applyMode fe mode)
    | .contO v r mode =>
      compareItems env gv pops attr context rest v (success && r)
        (applyMode fe mode)

/-- `compare(val, rule, attr, context, fatal_err, plugin_ops)`: a
non-dict rule is an implicit `eq`; otherwise iterate the rule's
operator entries. -/
def compare (env : Env) (gv : GlobalVars) (pops : POps) (val rule : Val)
    (attr context : String) (fatalErr : Option (List String)) :
    Except PyErr (Bool × Option (List String)) :=
  match rule with
  | .dictV items => compareItems env gv pops attr context items val true fatalErr
  | r => compareItems env gv pops attr context [("eq", r)] val true fatalErr

/-- `rule_implies_nonexistence(rule)`: the rule equals
`{"exists": False}` (Python `==`), or is a dict whose `"not"` entry
equals `{"exists": True}`. -/
def rule_implies_nonexistence (rule : Val) : Bool :=
  if pyEq rule (.dictV [("exists", .boolV false)]) then true
  else
    match rule with
    | .dictV d =>
      match lookupVal "not" d with
      | some inner => pyEq inner (.dictV [("exists", .boolV true)])
      | Option.none => false
    | _ => false

/-! `validate_rule` -/

/-- Python `for cond in v:` — iterating a list yields its elements, a
string its characters, a dict its keys, bytes its integer values;
anything else raises `TypeError`. -/
def iterElems : Val → Except PyErr (List Val)
  | .listV xs => .ok xs
  | .strV s => .ok (s.data.map (fun c => Val.strV (String.mk [c])))
  | .dictV xs => .ok (xs.map (fun kv => Val.strV kv.1))
  | .bytesV s => .ok (s.data.map (fun c => Val.intV (c.toNat : Int)))
  | v => .error (.typeError ("\x27" ++ typeName v ++ "\x27 object is not iterable"))

/-- `if block_fatal and fatal_err is not None: fatal_err.extend(block_fatal)`. -/
def extendIfTruthy (fe bf : Option (List String)) : Option (List String) :=
  match bf with
  | some l =>
    if l.isEmpty then fe
    else
      match fe with
      | some fl => some (fl ++ l)
      | Option.none => Option.none
  | Option.none => fe

/-- The per-attribute loop of `validate_rule` when both the rule and the
attributes are dicts (engine.py lines 477–502), threading `all_passed`,
`all_failures` and `fatal_err`. -/
def validateAttrs (env : Env) (gv : GlobalVars) (pops : POps)
    (attrsDict : List (String × Val)) (context : String)
    (insideNot allowMissing : Bool) :
    List (String × Val) → Bool → List String → Option (List String) →
    Except PyErr (Bool × List String × Option (List String))
  | [], allPassed, allFails, fe => .ok (allPassed, allFails, fe)
  | (name, condition) :: rest, allPassed, allFails, fe =>
    match lookupVal name attrsDict with
    | Option.none =>
      let fe2 :=
        if insideNot && allowMissing then fe
        else appendNotNone fe (context ++ ": unknown attribute: " ++ name)
      validateAttrs env gv pops attrsDict context insideNot allowMissing rest
        false allFails fe2
    | some value =>
      match compare env gv pops value condition name context (some []) with
      | .error e => .error e
      | .ok (result, bf) =>
        let allFails2 :=
          if !result && !insideNot then
            allFails ++
              [context ++ ": " ++ name ++ " failed condition " ++ pyStr condition]
          else allFails
        let fe2 := extendIfTruthy fe bf
        validateAttrs env gv pops attrsDict context insideNot allowMissing rest
          (allPassed && result) allFails2 fe2

/-- The non-dict-attributes leaf of `validate_rule` (engine.py lines
503–513): compare the attributes value against the (dict) rule
directly. -/
def validateNonDictAttrs (env : Env) (gv : GlobalVars) (pops : POps)
    (attributes rule : Val) (attr context : String) (insideNot : Bool)
    (fe : Option (List String)) :
    Except PyErr (Bool × List String × Option (List String)) :=
  match compare env gv pops attributes rule attr context (some []) with
  | .error e => .error e
  | .ok (result, bf) =>
    let fe2 := extendIfTruthy fe bf
    if !result && !insideNot then
      .ok (false, [context ++ ": " ++ attr ++ " failed condition " ++ pyStr rule],
        fe2)
    else .ok (result, [], fe2)

/-- The bare-value leaf of `validate_rule` (engine.py lines 514–524):
a non-dict rule is an implicit `eq`. -/
def validateBareLeaf (env : Env) (gv : GlobalVars) (pops : POps)
    (attributes cond : Val) (attr context : String) (insideNot : Bool)
    (fe : Option (List String)) :
    Except PyErr (Bool × List String × Option (List String)) :=
  match compare env gv pops attributes (.dictV [("eq", cond)]) attr context
      (some []) with
  | .error e => .error e
  | .ok (result, bf) =>
    let fe2 := extendIfTruthy fe bf
    if !result && !insideNot then
      .ok (false,
        [context ++ ": " ++ attr ++ " failed condition eq " ++ pyStr cond], fe2)
    else .ok (result, [], fe2)

mutual

/-- The recursion of `validate_rule`, with a fuel parameter.  For a dict
rule the `"and"`, `"or"` and `"not"` keys are tried in source order;
otherwise the dict-attributes loop or the appropriate leaf runs.
Recursive calls do not propagate `allow_missing_attrs` (the source
omits it), and `"not"` forces `inside_not=True`. -/
def vrGo (env : Env) (gv : GlobalVars) (pops : POps) :
    Nat → Val → Val → String → String → Bool → Option (List String) → Bool →
    Except PyErr (Bool × List String × Option (List String))
  | 0, _, _, _, _, _, _, _ => .error .fuelExhausted
  | n + 1, attributes, rule, attr, context, insideNot, fe, allowMissing =>
    match rule with
    | .dictV xs =>
      match lookupVal "and" xs with
      | some av =>
        (match iterElems av with
         | .error e => .error e
         | .ok conds =>
           vrAndList env gv pops attributes attr context insideNot n conds fe
             true [])
      | Option.none =>
        match lookupVal "or" xs with
        | some ov =>
          (match iterElems ov with
           | .error e => .error e
           | .ok conds =>
             vrOrList env gv pops attributes attr context insideNot n conds fe [])
        | Option.none =>
          match lookupVal "not" xs with
          | some inner =>
            (match vrGo env gv pops n attributes inner attr context true fe
                false with
             | .error e => .error e
             | .ok (passed, _fails, fe2) =>
               if passed then
                 .ok (false,
                   [context ++ ": " ++ attr ++ " failed \x27not\x27 condition: " ++
                     pyStr inner], fe2)
               else .ok (true, [], fe2))
          | Option.none =>
            match attributes with
            | .dictV ad =>
              validateAttrs env gv pops ad context insideNot allowMissing xs
                true [] fe
            | _ =>
              validateNonDictAttrs env gv pops attributes (.dictV xs) attr
                context insideNot fe
    | r => validateBareLeaf env gv pops attributes r attr context insideNot fe

/-- The `"and"` loop: every condition is evaluated; failures
accumulate. -/
def vrAndList (env : Env) (gv : GlobalVars) (pops : POps) (attributes : Val)
    (attr context : String) (insideNot : Bool) :
    Nat → List Val → Option (List String) → Bool → List String →
    Except PyErr (Bool × List String × Option (List String))
  | 0, _, _, _, _ => .error .fuelExhausted
  | _ + 1, [], fe, allPassed, allFails => .ok (allPassed, allFails, fe)
  | n + 1, c :: rest, fe, allPassed, allFails =>
    match vrGo env gv pops n attributes c attr context insideNot fe false with
    | .error e => .error e
    | .ok (p, f, fe2) =>
      vrAndList env gv pops attributes attr context insideNot n rest fe2
        (allPassed && p) (if p then allFails else allFails ++ f)

/-- The `"or"` loop: stop at the first passing condition (discarding
accumulated failures); otherwise accumulate failures. -/
def vrOrList (env : Env) (gv : GlobalVars) (pops : POps) (attributes : Val)
    (attr context : String) (insideNot : Bool) :
    Nat → List Val → Option (List String) → List String →
    Except PyErr (Bool × List String × Option (List String))
  | 0, _, _, _ => .error .fuelExhausted
  | _ + 1, [], fe, allFails => .ok (false, allFails, fe)
  | n + 1, c :: rest, fe, allFails =>
    match vrGo env gv pops n attributes c attr context insideNot fe false with
    | .error e => .error e
    | .ok (p, f, fe2) =>
      if p then .ok (true, [], fe2)
      else vrOrList env gv pops attributes attr context insideNot n rest fe2
        (allFails ++ f)

end

mutual

/-- Fuel bound for `vrGo` on a rule (an over-approximation, proved
sufficient below). -/
def bnd : Val → Nat
  | .dictV xs => bndD xs + 1
  | .listV xs => bndL xs + 1
  | .strV s => s.length + 1
  | .bytesV s => s.length + 1
  | _ => 1

/-- Fuel bound for `vrAndList`/`vrOrList` on a condition list. -/
def bndL : List Val → Nat
  | [] => 1
  | c :: rest => max (bnd c) (bndL rest) + 1

/-- Fuel bound for the condition list produced by iterating a value. -/
def iterB : Val → Nat
  | .listV xs => bndL xs
  | .strV s => s.length + 2
  | .bytesV s => s.length + 2
  | .dictV xs => 1 + keyCost xs
  | _ => 0

/-- Cost of a dict's keys viewed as an iteration source. -/
def keyCost : List (String × Val) → Nat
  | [] => 0
  | (k, _) :: rest => 2 + k.length + keyCost rest

/-- Per-entry fuel bound for a rule dict. -/
def bndD : List (String × Val) → Nat
  | [] => 1
  | (_, v) :: rest => bnd v + iterB v + bndD rest + 1

end

/-- `validate_rule(attributes, rule, attr, context, inside_not,
fatal_err, plugin_ops, allow_missing_attrs)`, run with sufficient
fuel. -/
def validate_rule (env : Env) (gv : GlobalVars) (pops : POps)
    (attributes rule : Val) (attr context : String) (insideNot : Bool)
    (fe : Option (List String)) (allowMissing : Bool) :
    Except PyErr (Bool × List String × Option (List String)) :=
  vrGo env gv pops (bnd rule) attributes rule attr context insideNot fe
    allowMissing

/-! ### A concrete oracle environment for witnesses and
counterexamples -/

/-- A small concrete model of `ast.parse` that covers numeric literals
with an optional leading `-` (parsed by Python as `UnaryOp(USub, ...)`)
or `~` (`UnaryOp(Invert, ...)`); everything else is a syntax error.
Only used to instantiate theorems at concrete inputs. -/
def parse0 (s : String) : Except String Ast :=
  let core : List Char → Except String Ast := fun cs2 =>
    if cs2.all (fun c => c.isDigit) && !cs2.isEmpty then
      match parseDigits cs2 with
      | some p => .ok (.num (.intN (p.1 : Int)))
      | Option.none => .error "invalid syntax"
    else
      match pyFloat (String.mk cs2) with
      | some q => .ok (.num (.floatN q))
      | Option.none => .error "invalid syntax"
  match s.data with
  | '-' :: rest => (core rest).map (fun t => .unaryOp .usubU t)
  | '~' :: rest => (core rest).map (fun t => .unaryOp .invertU t)
  | cs => core cs

/-- A concrete environment: an empty filesystem, a failing base64
decoder, a trivial regex engine and hash.  Used only to instantiate
theorems at concrete inputs. -/
def env0 : Env where
  parse := parse0
  regexSearch := fun _ _ => .ok false
  pathExists := fun _ => .ok false
  readBytes := fun _ => .error "io error"
  sha256hex := fun s => "sha-" ++ s
  b64decode := fun _ => .error "bad base64"
  utf8decode := fun s => .ok s
  rpow := fun _ _ => 0

/-! `fatal_err` does not influence results (`compare` level) -/

theorem compareItems_fst_fe (env : Env) (gv : GlobalVars) (pops : POps)
    (attr ctx : String) :
    ∀ (items : List (String × Val)) (val : Val) (success : Bool)
      (fe1 fe2 : Option (List String)),
      (compareItems env gv pops attr ctx items val success fe1).map Prod.fst =
        (compareItems env gv pops attr ctx items val success fe2).map Prod.fst := by
  intro items
  induction items with
  | nil => intro val success fe1 fe2; rfl
  | cons h t ih =>
    intro val success fe1 fe2
    obtain ⟨k, e0⟩ := h
    cases hd : compareOpDecision env gv pops attr ctx k e0 val with
    | crashO er => simp only [compareItems, hd]
    | retFalseO mode => simp only [compareItems, hd, Except.map]
    | contO v r mode =>
      simp only [compareItems, hd]
      exact ih v (success && r) _ _

theorem compare_fst_fe (env : Env) (gv : GlobalVars) (pops : POps)
    (val rule : Val) (attr ctx : String) (fe1 fe2 : Option (List String)) :
    (compare env gv pops val rule attr ctx fe1).map Prod.fst =
      (compare env gv pops val rule attr ctx fe2).map Prod.fst := by
  cases rule <;> exact compareItems_fst_fe env gv pops attr ctx _ _ _ _ _

/-! `fatal_err` does not influence results (`validate_rule` level) -/

/-- Forget the final `fatal_err` component of a `validate_rule` result,
keeping the pass/fail boolean and the failure list. -/
def shapeV (x : Except PyErr (Bool × List String × Option (List String))) :
    Except PyErr (Bool × List String) :=
  x.map (fun r => (r.1, r.2.1))

theorem shapeV_cases {x y : Except PyErr (Bool × List String × Option (List String))}
    (h : shapeV x = shapeV y) :
    (∃ e, x = .error e ∧ y = .error e) ∨
      (∃ b f fx fy, x = .ok (b, f, fx) ∧ y = .ok (b, f, fy)) := by
  cases x with
  | error e =>
    cases y with
    | error e2 =>
      simp only [shapeV, Except.map, Except.error.injEq] at h
      exact Or.inl ⟨e, rfl, by rw [h]⟩
    | ok r => simp [shapeV, Except.map] at h
  | ok r =>
    cases y with
    | error e2 => simp [shapeV, Except.map] at h
    | ok r2 =>
      simp only [shapeV, Except.map, Except.ok.injEq] at h
      obtain ⟨b, f, fx⟩ := r
      obtain ⟨b2, f2, fy⟩ := r2
      simp only [Prod.mk.injEq] at h
      exact Or.inr ⟨b, f, fx, fy, rfl, by rw [h.1, h.2]⟩

theorem validateAttrs_fe (env : Env) (gv : GlobalVars) (pops : POps)
    (ad : List (String × Val)) (ctx : String) (inot am : Bool) :
    ∀ (items : List (String × Val)) (ap : Bool) (af : List String)
      (fe1 fe2 : Option (List String)),
      shapeV (validateAttrs env gv pops ad ctx inot am items ap af fe1) =
        shapeV (validateAttrs env gv pops ad ctx inot am items ap af fe2) := by
  intro items
  induction items with
  | nil => intro ap af fe1 fe2; rfl
  | cons h t ih =>
    intro ap af fe1 fe2
    obtain ⟨name, condition⟩ := h
    cases hl : lookupVal name ad with
    | none => simp only [validateAttrs, hl]; exact ih _ _ _ _
    | some value =>
      simp only [validateAttrs, hl]
      cases hc : compare env gv pops value condition name ctx (some []) with
      | error e => rfl
      | ok r => obtain ⟨result, bf⟩ := r; exact ih _ _ _ _

theorem validateNonDictAttrs_fe (env : Env) (gv : GlobalVars) (pops : POps)
    (attributes rule : Val) (attr ctx : String) (inot : Bool)
    (fe1 fe2 : Option (List String)) :
    shapeV (validateNonDictAttrs env gv pops attributes rule attr ctx inot fe1) =
      shapeV (validateNonDictAttrs env gv pops attributes rule attr ctx inot fe2) := by
  unfold validateNonDictAttrs
  cases hc : compare env gv pops attributes rule attr ctx (some []) with
  | error e => rfl
  | ok r =>
    obtain ⟨result, bf⟩ := r
    cases result <;> cases inot <;> rfl

theorem validateBareLeaf_fe (env : Env) (gv : GlobalVars) (pops : POps)
    (attributes cond : Val) (attr ctx : String) (inot : Bool)
    (fe1 fe2 : Option (List String)) :
    shapeV (validateBareLeaf env gv pops attributes cond attr ctx inot fe1) =
      shapeV (validateBareLeaf env gv pops attributes cond attr ctx inot fe2) := by
  unfold validateBareLeaf
  cases hc : compare env gv pops attributes (.dictV [("eq", cond)]) attr ctx
      (some []) with
  | error e => rfl
  | ok r =>
    obtain ⟨result, bf⟩ := r
    cases result <;> cases inot <;> rfl

theorem vr_fe_all (env : Env) (gv : GlobalVars) (pops : POps) : ∀ n : Nat,
    (∀ (A rule : Val) (attr ctx : String) (inot am : Bool)
       (fe1 fe2 : Option (List String)),
      shapeV (vrGo env gv pops n A rule attr ctx inot fe1 am) =
        shapeV (vrGo env gv pops n A rule attr ctx inot fe2 am)) ∧
    (∀ (A : Val) (attr ctx : String) (inot : Bool) (conds : List Val)
       (ap : Bool) (af : List String) (fe1 fe2 : Option (List String)),
      shapeV (vrAndList env gv pops A attr ctx inot n conds fe1 ap af) =
        shapeV (vrAndList env gv pops A attr ctx inot n conds fe2 ap af)) ∧
    (∀ (A : Val) (attr ctx : String) (inot : Bool) (conds : List Val)
       (af : List String) (fe1 fe2 : Option (List String)),
      shapeV (vrOrList env gv pops A attr ctx inot n conds fe1 af) =
        shapeV (vrOrList env gv pops A attr ctx inot n conds fe2 af)) := by
  intro n
  induction n with
  | zero => exact ⟨fun _ _ _ _ _ _ _ _ => rfl, fun _ _ _ _ _ _ _ _ _ => rfl,
      fun _ _ _ _ _ _ _ _ => rfl⟩
  | succ n ih =>
    refine ⟨?_, ?_, ?_⟩
    · intro A rule attr ctx inot am fe1 fe2
      cases rule with
      | dictV xs =>
        cases ha : lookupVal "and" xs with
        | some av =>
          simp only [vrGo, ha]
          cases hi : iterElems av with
          | error e => rfl
          | ok conds => exact ih.2.1 _ _ _ _ _ _ _ _ _
        | none =>
          cases ho : lookupVal "or" xs with
          | some ov =>
            simp only [vrGo, ha, ho]
            cases hi : iterElems ov with
            | error e => rfl
            | ok conds => exact ih.2.2 _ _ _ _ _ _ _ _
          | none =>
            cases hn : lookupVal "not" xs with
            | some inner =>
              simp only [vrGo, ha, ho, hn]
              have h := ih.1 A inner attr ctx true false fe1 fe2
              rcases shapeV_cases h with ⟨e, h1, h2⟩ | ⟨b, f, fx, fy, h1, h2⟩
              · rw [h1, h2]
              · rw [h1, h2]
                cases b <;> rfl
            | none =>
              cases A with
              | dictV ad =>
                simp only [vrGo, ha, ho, hn]
                exact validateAttrs_fe env gv pops ad ctx inot am xs true [] fe1 fe2
              | noneV =>
                simp only [vrGo, ha, ho, hn]
                exact validateNonDictAttrs_fe env gv pops _ _ attr ctx inot fe1 fe2
              | boolV b =>
                simp only [vrGo, ha, ho, hn]
                exact validateNonDictAttrs_fe env gv pops _ _ attr ctx inot fe1 fe2
              | intV i =>
                simp only [vrGo, ha, ho, hn]
                exact validateNonDictAttrs_fe env gv pops _ _ attr ctx inot fe1 fe2
              | floatV q =>
                simp only [vrGo, ha, ho, hn]
                exact validateNonDictAttrs_fe env gv pops _ _ attr ctx inot fe1 fe2
              | strV s =>
                simp only [vrGo, ha, ho, hn]
                exact validateNonDictAttrs_fe env gv pops _ _ attr ctx inot fe1 fe2
              | bytesV s =>
                simp only [vrGo, ha, ho, hn]
                exact validateNonDictAttrs_fe env gv pops _ _ attr ctx inot fe1 fe2
              | listV l =>
                simp only [vrGo, ha, ho, hn]
                exact validateNonDictAttrs_fe env gv pops _ _ attr ctx inot fe1 fe2
      | noneV => exact validateBareLeaf_fe env gv pops _ _ attr ctx inot fe1 fe2
      | boolV b => exact validateBareLeaf_fe env gv pops _ _ attr ctx inot fe1 fe2
      | intV i => exact validateBareLeaf_fe env gv pops _ _ attr ctx inot fe1 fe2
      | floatV q => exact validateBareLeaf_fe env gv pops _ _ attr ctx inot fe1 fe2
      | strV s => exact validateBareLeaf_fe env gv pops _ _ attr ctx inot fe1 fe2
      | bytesV s => exact validateBareLeaf_fe env gv pops _ _ attr ctx inot fe1 fe2
      | listV l => exact validateBareLeaf_fe env gv pops _ _ attr ctx inot fe1 fe2
    · intro A attr ctx inot conds ap af fe1 fe2
      cases conds with
      | nil => rfl
      | cons c rest =>
        simp only [vrAndList]
        have h := ih.1 A c attr ctx inot false fe1 fe2
        rcases shapeV_cases h with ⟨e, h1, h2⟩ | ⟨b, f, fx, fy, h1, h2⟩
        · rw [h1, h2]
        · rw [h1, h2]
          exact ih.2.1 _ _ _ _ _ _ _ _ _
    · intro A attr ctx inot conds af fe1 fe2
      cases conds with
      | nil => rfl
      | cons c rest =>
        simp only [vrOrList]
        have h := ih.1 A c attr ctx inot false fe1 fe2
        rcases shapeV_cases h with ⟨e, h1, h2⟩ | ⟨b, f, fx, fy, h1, h2⟩
        · rw [h1, h2]
        · rw [h1, h2]
          by_cases hb : b = true <;> simp only [hb, if_true, if_false,
            Bool.false_eq_true]
          · rfl
          · exact ih.2.2 _ _ _ _ _ _ _ _

/-- `validate_rule`'s pass/fail boolean and failure list do not depend
on the incoming `fatal_err` list. -/
theorem validate_rule_fe (env : Env) (gv : GlobalVars) (pops : POps)
    (A rule : Val) (attr ctx : String) (inot am : Bool)
    (fe1 fe2 : Option (List String)) :
    shapeV (validate_rule env gv pops A rule attr ctx inot fe1 am) =
      shapeV (validate_rule env gv pops A rule attr ctx inot fe2 am) :=
  ((vr_fe_all env gv pops (bnd rule)).1) A rule attr ctx inot am fe1 fe2

/-! Fuel sufficiency: `vrGo` is fuel-invariant above `bnd` -/

theorem bnd_pos (v : Val) : 1 ≤ bnd v := by
  cases v <;> simp [bnd]

theorem bndL_pos (l : List Val) : 1 ≤ bndL l := by
  cases l <;> simp [bndL]

theorem bndD_pos (xs : List (String × Val)) : 1 ≤ bndD xs := by
  cases xs with
  | nil => simp [bndD]
  | cons h t => obtain ⟨k, v⟩ := h; simp [bndD]

theorem lookup_bnd {k : String} {xs : List (String × Val)} {v : Val}
    (h : lookupVal k xs = some v) : bnd v + iterB v + 1 ≤ bndD xs := by
  induction xs with
  | nil => simp [lookupVal] at h
  | cons hd t ih =>
    obtain ⟨k2, w⟩ := hd
    by_cases hk : k2 = k
    · simp only [lookupVal, hk, if_true, Option.some.injEq] at h
      subst h
      simp only [bndD]
      omega
    · simp only [lookupVal, hk, if_false] at h
      have := ih h
      simp only [bndD]
      omega

theorem bndL_le_of_small {l : List Val} (h : ∀ c ∈ l, bnd c ≤ 2) :
    bndL l ≤ l.length + 2 := by
  induction l with
  | nil => simp [bndL]
  | cons c rest ih =>
    have h1 : bnd c ≤ 2 := h c (List.mem_cons_self c rest)
    have h2 : bndL rest ≤ rest.length + 2 :=
      ih (fun x hx => h x (List.mem_cons_of_mem c hx))
    simp only [bndL, List.length_cons]
    omega

theorem bndL_keys_le (xs : List (String × Val)) :
    bndL (xs.map (fun kv => Val.strV kv.1)) ≤ 1 + keyCost xs := by
  induction xs with
  | nil => simp [bndL, keyCost]
  | cons hd t ih =>
    obtain ⟨k, v⟩ := hd
    simp only [List.map_cons, bndL, keyCost, bnd]
    have h1 : k.length + 1 ≤ 2 + k.length + keyCost t := by omega
    have h2 : bndL (t.map (fun kv => Val.strV kv.1)) ≤
        2 + k.length + keyCost t := le_trans ih (by omega)
    have h3 := sup_le h1 h2
    omega

theorem iter_bnd {v : Val} {l : List Val} (h : iterElems v = .ok l) :
    bndL l ≤ iterB v := by
  cases v with
  | listV xs =>
    simp only [iterElems, Except.ok.injEq] at h
    subst h
    simp [iterB]
  | strV s =>
    simp only [iterElems, Except.ok.injEq] at h
    subst h
    have hs := bndL_le_of_small
      (l := s.data.map (fun c => Val.strV (String.mk [c])))
      (by
        intro c hc
        simp only [List.mem_map] at hc
        obtain ⟨x, _, hx⟩ := hc
        subst hx
        simp only [bnd, String.length, List.length_singleton]
        omega)
    simp only [iterB, List.length_map, String.length] at hs ⊢
    exact hs
  | bytesV s =>
    simp only [iterElems, Except.ok.injEq] at h
    subst h
    have hs := bndL_le_of_small
      (l := s.data.map (fun c => Val.intV (c.toNat : Int)))
      (by
        intro c hc
        simp only [List.mem_map] at hc
        obtain ⟨x, _, hx⟩ := hc
        subst hx
        simp only [bnd]
        omega)
    simp only [iterB, List.length_map, String.length] at hs ⊢
    exact hs
  | dictV xs =>
    simp only [iterElems, Except.ok.injEq] at h
    subst h
    simpa [iterB] using bndL_keys_le xs
  | noneV => simp [iterElems] at h
  | boolV b => simp [iterElems] at h
  | intV n => simp [iterElems] at h
  | floatV q => simp [iterElems] at h

theorem vr_fuel_all (env : Env) (gv : GlobalVars) (pops : POps) : ∀ n : Nat,
    (∀ (m : Nat) (A rule : Val) (attr ctx : String) (inot am : Bool)
       (fe : Option (List String)),
      bnd rule ≤ n → bnd rule ≤ m →
      vrGo env gv pops n A rule attr ctx inot fe am =
        vrGo env gv pops m A rule attr ctx inot fe am) ∧
    (∀ (m : Nat) (A : Val) (attr ctx : String) (inot : Bool) (conds : List Val)
       (ap : Bool) (af : List String) (fe : Option (List String)),
      bndL conds ≤ n → bndL conds ≤ m →
      vrAndList env gv pops A attr ctx inot n conds fe ap af =
        vrAndList env gv pops A attr ctx inot m conds fe ap af) ∧
    (∀ (m : Nat) (A : Val) (attr ctx : String) (inot : Bool) (conds : List Val)
       (af : List String) (fe : Option (List String)),
      bndL conds ≤ n → bndL conds ≤ m →
      vrOrList env gv pops A attr ctx inot n conds fe af =
        vrOrList env gv pops A attr ctx inot m conds fe af) := by
  intro n
  induction n with
  | zero =>
    refine ⟨fun m A rule _ _ _ _ _ hn _ => absurd hn ?_,
      fun m A _ _ _ conds _ _ _ hn _ => absurd hn ?_,
      fun m A _ _ _ conds _ _ hn _ => absurd hn ?_⟩
    · have := bnd_pos rule; omega
    · have := bndL_pos conds; omega
    · have := bndL_pos conds; omega
  | succ n ih =>
    refine ⟨?_, ?_, ?_⟩
    · intro m A rule attr ctx inot am fe hn hm
      cases m with
      | zero => have := bnd_pos rule; omega
      | succ m' =>
        cases rule with
        | dictV xs =>
          have hbd : bndD xs ≤ n := by simp only [bnd] at hn; omega
          have hbd2 : bndD xs ≤ m' := by simp only [bnd] at hm; omega
          cases ha : lookupVal "and" xs with
          | some av =>
            simp only [vrGo, ha]
            cases hi : iterElems av with
            | error e => rfl
            | ok conds =>
              have h1 := lookup_bnd ha
              have h2 := iter_bnd hi
              have hp := bnd_pos av
              exact ih.2.1 m' A attr ctx inot conds true [] fe (by omega) (by omega)
          | none =>
            cases ho : lookupVal "or" xs with
            | some ov =>
              simp only [vrGo, ha, ho]
              cases hi : iterElems ov with
              | error e => rfl
              | ok conds =>
                have h1 := lookup_bnd ho
                have h2 := iter_bnd hi
                have hp := bnd_pos ov
                exact ih.2.2 m' A attr ctx inot conds [] fe (by omega) (by omega)
            | none =>
              cases hno : lookupVal "not" xs with
              | some inner =>
                simp only [vrGo, ha, ho, hno]
                have h1 := lookup_bnd hno
                rw [ih.1 m' A inner attr ctx true false fe (by omega) (by omega)]
              | none =>
                cases A <;> simp only [vrGo, ha, ho, hno]
        | noneV => simp only [vrGo]
        | boolV b => simp only [vrGo]
        | intV i => simp only [vrGo]
        | floatV q => simp only [vrGo]
        | strV s => simp only [vrGo]
        | bytesV s => simp only [vrGo]
        | listV l => simp only [vrGo]
    · intro m A attr ctx inot conds ap af fe hn hm
      cases m with
      | zero => have := bndL_pos conds; omega
      | succ m' =>
        cases conds with
        | nil => rfl
        | cons c rest =>
          have hb : bnd c ≤ n ∧ bndL rest ≤ n := by
            simp only [bndL] at hn; constructor <;> omega
          have hb2 : bnd c ≤ m' ∧ bndL rest ≤ m' := by
            simp only [bndL] at hm; constructor <;> omega
          simp only [vrAndList]
          rw [ih.1 m' A c attr ctx inot false fe hb.1 hb2.1]
          cases vrGo env gv pops m' A c attr ctx inot fe false with
          | error e => rfl
          | ok r =>
            obtain ⟨p, f, fe2⟩ := r
            exact ih.2.1 m' A attr ctx inot rest (ap && p) _ fe2 hb.2 hb2.2
    · intro m A attr ctx inot conds af fe hn hm
      cases m with
      | zero => have := bndL_pos conds; omega
      | succ m' =>
        cases conds with
        | nil => rfl
        | cons c rest =>
          have hb : bnd c ≤ n ∧ bndL rest ≤ n := by
            simp only [bndL] at hn; constructor <;> omega
          have hb2 : bnd c ≤ m' ∧ bndL rest ≤ m' := by
            simp only [bndL] at hm; constructor <;> omega
          simp only [vrOrList]
          rw [ih.1 m' A c attr ctx inot false fe hb.1 hb2.1]
          cases vrGo env gv pops m' A c attr ctx inot fe false with
          | error e => rfl
          | ok r =>
            obtain ⟨p, f, fe2⟩ := r
            cases p with
            | true => rfl
            | false => exact ih.2.2 m' A attr ctx inot rest _ fe2 hb.2 hb2.2

/-- Any fuel above the bound computes `validate_rule`. -/
theorem vrGo_eq_validate (env : Env) (gv : GlobalVars) (pops : POps)
    (n : Nat) (A rule : Val) (attr ctx : String) (inot am : Bool)
    (fe : Option (List String)) (h : bnd rule ≤ n) :
    vrGo env gv pops n A rule attr ctx inot fe am =
      validate_rule env gv pops A rule attr ctx inot fe am :=
  (vr_fuel_all env gv pops n).1 (bnd rule) A rule attr ctx inot am fe h
    (Nat.le_refl _)

/-! Characterizing `and` / `or` / `not` rules -/

/-- Canonical evaluation of a sub-rule: `validate_rule` with the default
`fatal_err=None` and `allow_missing_attrs=False` (as in the engine's
recursive calls), with the final `fatal_err` forgotten. -/
def vrB (env : Env) (gv : GlobalVars) (pops : POps) (A c : Val)
    (attr ctx : String) (inot : Bool) : Except PyErr (Bool × List String) :=
  shapeV (validate_rule env gv pops A c attr ctx inot Option.none false)

/-- The pass/fail boolean of a result (`false` for an exception). -/
def passOfB : Except PyErr (Bool × List String) → Bool
  | .ok (b, _) => b
  | .error _ => false

theorem shapeV_ok {x : Except PyErr (Bool × List String × Option (List String))}
    {b : Bool} {f : List String} (h : shapeV x = .ok (b, f)) :
    ∃ fz, x = .ok (b, f, fz) := by
  cases x with
  | error e => simp [shapeV, Except.map] at h
  | ok r =>
    obtain ⟨b2, f2, fz⟩ := r
    simp only [shapeV, Except.map, Except.ok.injEq, Prod.mk.injEq] at h
    exact ⟨fz, by rw [h.1, h.2]⟩

/-- A condition evaluated inside `vrAndList`/`vrOrList` (fuel `n`,
threaded `fatal_err`) agrees in shape with its canonical evaluation. -/
theorem vrGo_shape_canonical (env : Env) (gv : GlobalVars) (pops : POps)
    (A c : Val) (attr ctx : String) (inot : Bool) (n : Nat)
    (fe : Option (List String)) (hn : bnd c ≤ n) :
    shapeV (vrGo env gv pops n A c attr ctx inot fe false) =
      vrB env gv pops A c attr ctx inot := by
  rw [vrGo_eq_validate env gv pops n A c attr ctx inot false fe hn]
  exact validate_rule_fe env gv pops A c attr ctx inot false fe Option.none

theorem vrAndList_char (env : Env) (gv : GlobalVars) (pops : POps) (A : Val)
    (attr ctx : String) (inot : Bool) :
    ∀ (conds : List Val) (n : Nat) (ap : Bool) (af : List String)
      (fe : Option (List String)),
      bndL conds ≤ n →
      (∀ c ∈ conds, ∃ r, vrB env gv pops A c attr ctx inot = .ok r) →
      ∃ f fe2,
        vrAndList env gv pops A attr ctx inot n conds fe ap af =
          .ok (ap && conds.all
            (fun c => passOfB (vrB env gv pops A c attr ctx inot)), f, fe2) := by
  intro conds
  induction conds with
  | nil =>
    intro n ap af fe hn _
    cases n with
    | zero => simp [bndL] at hn
    | succ n' => exact ⟨af, fe, by simp [vrAndList]⟩
  | cons c rest ih =>
    intro n ap af fe hn hok
    cases n with
    | zero => simp [bndL] at hn
    | succ n' =>
      have hb : bnd c ≤ n' ∧ bndL rest ≤ n' := by
        simp only [bndL] at hn; constructor <;> omega
      obtain ⟨⟨b, f0⟩, hc⟩ := hok c (List.mem_cons_self c rest)
      have hsh := vrGo_shape_canonical env gv pops A c attr ctx inot n' fe hb.1
      rw [hc] at hsh
      obtain ⟨fy, hy⟩ := shapeV_ok hsh
      have hrest := ih n' (ap && b) (if b then af else af ++ f0) fy hb.2
        (fun x hx => hok x (List.mem_cons_of_mem c hx))
      obtain ⟨f, fe2, hr⟩ := hrest
      refine ⟨f, fe2, ?_⟩
      simp only [vrAndList, hy, hr, List.all_cons]
      congr 1
      have hpass : passOfB (vrB env gv pops A c attr ctx inot) = b := by
        rw [hc]; rfl
      rw [hpass, Bool.and_assoc]

theorem vrOrList_char (env : Env) (gv : GlobalVars) (pops : POps) (A : Val)
    (attr ctx : String) (inot : Bool) :
    ∀ (conds : List Val) (n : Nat) (af : List String)
      (fe : Option (List String)),
      bndL conds ≤ n →
      (∀ c ∈ conds, ∃ r, vrB env gv pops A c attr ctx inot = .ok r) →
      ∃ f fe2,
        vrOrList env gv pops A attr ctx inot n conds fe af =
          .ok (conds.any
            (fun c => passOfB (vrB env gv pops A c attr ctx inot)), f, fe2) := by
  intro conds
  induction conds with
  | nil =>
    intro n af fe hn _
    cases n with
    | zero => simp [bndL] at hn
    | succ n' => exact ⟨af, fe, by simp [vrOrList]⟩
  | cons c rest ih =>
    intro n af fe hn hok
    cases n with
    | zero => simp [bndL] at hn
    | succ n' =>
      have hb : bnd c ≤ n' ∧ bndL rest ≤ n' := by
        simp only [bndL] at hn; constructor <;> omega
      obtain ⟨⟨b, f0⟩, hc⟩ := hok c (List.mem_cons_self c rest)
      have hsh := vrGo_shape_canonical env gv pops A c attr ctx inot n' fe hb.1
      rw [hc] at hsh
      obtain ⟨fy, hy⟩ := shapeV_ok hsh
      have hpass : passOfB (vrB env gv pops A c attr ctx inot) = b := by
        rw [hc]; rfl
      cases b with
      | true =>
        refine ⟨[], fy, ?_⟩
        simp [vrOrList, hy, List.any_cons, hpass]
      | false =>
        have hrest := ih n' (af ++ f0) fy hb.2
          (fun x hx => hok x (List.mem_cons_of_mem c hx))
        obtain ⟨f, fe2, hr⟩ := hrest
        refine ⟨f, fe2, ?_⟩
        simp [vrOrList, hy, hr, List.any_cons, hpass]

theorem validate_and_rule (env : Env) (gv : GlobalVars) (pops : POps)
    (A : Val) (rs : List Val) (attr ctx : String) (inot am : Bool)
    (fe : Option (List String))
    (hok : ∀ c ∈ rs, ∃ r, vrB env gv pops A c attr ctx inot = .ok r) :
    ∃ f fe2,
      validate_rule env gv pops A (.dictV [("and", .listV rs)]) attr ctx inot
          fe am =
        .ok (rs.all (fun c => passOfB (vrB env gv pops A c attr ctx inot)),
          f, fe2) := by
  have hfuel : bndL rs ≤ bndD [("and", Val.listV rs)] := by
    simp only [bndD, iterB, bnd]
    omega
  obtain ⟨f, fe2, hr⟩ := vrAndList_char env gv pops A attr ctx inot rs
    (bndD [("and", Val.listV rs)]) true [] fe hfuel hok
  refine ⟨f, fe2, ?_⟩
  show vrGo env gv pops (bnd (Val.dictV [("and", Val.listV rs)])) A _ attr ctx
    inot fe am = _
  have hb : bnd (Val.dictV [("and", Val.listV rs)]) =
      bndD [("and", Val.listV rs)] + 1 := rfl
  rw [hb]
  have h1 : lookupVal "and" [("and", Val.listV rs)] = some (Val.listV rs) := rfl
  simp only [vrGo, h1, iterElems, hr, Bool.true_and]

theorem validate_or_rule (env : Env) (gv : GlobalVars) (pops : POps)
    (A : Val) (rs : List Val) (attr ctx : String) (inot am : Bool)
    (fe : Option (List String))
    (hok : ∀ c ∈ rs, ∃ r, vrB env gv pops A c attr ctx inot = .ok r) :
    ∃ f fe2,
      validate_rule env gv pops A (.dictV [("or", .listV rs)]) attr ctx inot
          fe am =
        .ok (rs.any (fun c => passOfB (vrB env gv pops A c attr ctx inot)),
          f, fe2) := by
  have hfuel : bndL rs ≤ bndD [("or", Val.listV rs)] := by
    simp only [bndD, iterB, bnd]
    omega
  obtain ⟨f, fe2, hr⟩ := vrOrList_char env gv pops A attr ctx inot rs
    (bndD [("or", Val.listV rs)]) [] fe hfuel hok
  refine ⟨f, fe2, ?_⟩
  show vrGo env gv pops (bnd (Val.dictV [("or", Val.listV rs)])) A _ attr ctx
    inot fe am = _
  have hb : bnd (Val.dictV [("or", Val.listV rs)]) =
      bndD [("or", Val.listV rs)] + 1 := rfl
  rw [hb]
  have h1 : lookupVal "and" [("or", Val.listV rs)] = Option.none := rfl
  have h2 : lookupVal "or" [("or", Val.listV rs)] = some (Val.listV rs) := rfl
  simp only [vrGo, h1, h2, iterElems, hr]

theorem validate_not_rule (env : Env) (gv : GlobalVars) (pops : POps)
    (A r1 : Val) (attr ctx : String) (inot am : Bool)
    (fe : Option (List String)) (b : Bool) (f0 : List String)
    (hok : vrB env gv pops A r1 attr ctx true = .ok (b, f0)) :
    ∃ f fe2,
      validate_rule env gv pops A (.dictV [("not", r1)]) attr ctx inot fe am =
        .ok (!b, f, fe2) := by
  have hfuel : bnd r1 ≤ bndD [("not", r1)] := by
    simp only [bndD]
    omega
  have hsh : shapeV (vrGo env gv pops (bndD [("not", r1)]) A r1 attr ctx true
      fe false) = .ok (b, f0) := by
    rw [vrGo_eq_validate env gv pops _ A r1 attr ctx true false fe hfuel]
    rw [validate_rule_fe env gv pops A r1 attr ctx true false fe Option.none]
    exact hok
  obtain ⟨fy, hy⟩ := shapeV_ok hsh
  show ∃ f fe2, vrGo env gv pops (bnd (Val.dictV [("not", r1)])) A _ attr ctx
    inot fe am = .ok (!b, f, fe2)
  have hstep : vrGo env gv pops (bnd (Val.dictV [("not", r1)])) A
      (Val.dictV [("not", r1)]) attr ctx inot fe am =
      (match vrGo env gv pops (bndD [("not", r1)]) A r1 attr ctx true fe
          false with
       | .error e => .error e
       | .ok (passed, _fails, fe2) =>
         if passed then
           .ok (false, [ctx ++ ": " ++ attr ++
             " failed \x27not\x27 condition: " ++ pyStr r1], fe2)
         else .ok (true, [], fe2)) := rfl
  rw [hstep, hy]
  cases b with
  | true =>
    exact ⟨[ctx ++ ": " ++ attr ++ " failed \x27not\x27 condition: " ++
      pyStr r1], fy, rfl⟩
  | false => exact ⟨[], fy, rfl⟩

/-! Claim C1 -/

/-- C1: `validate_rule` evaluates boolean composition compositionally
against the attribute dictionary: provided each sub-rule's evaluation
returns (raises no exception), a `{"and": [r1..rn]}` rule passes iff
every `ri` passes, a `{"or": [r1..rn]}` rule passes iff some `ri`
passes, and a `{"not": r}` rule passes iff `r` fails; in each case the
returned value is a pair of the pass/fail boolean and a list of failure
strings (the `.ok (b, f, fe2)` below, `fe2` being the threaded
`fatal_err` state of the embedding). -/
theorem c1_validate_rule_boolean_composition
    (env : Env) (gv : GlobalVars) (pops : POps) (A : Val) (rs : List Val)
    (r1 : Val) (attr ctx : String) (inot am : Bool) (fe : Option (List String))
    (hok : ∀ c ∈ rs, ∃ r, vrB env gv pops A c attr ctx inot = .ok r)
    (hok1 : ∃ r, vrB env gv pops A r1 attr ctx true = .ok r) :
    (∃ b f fe2,
      validate_rule env gv pops A (.dictV [("and", .listV rs)]) attr ctx inot
          fe am = .ok (b, f, fe2) ∧
      (b = true ↔
        ∀ c ∈ rs, passOfB (vrB env gv pops A c attr ctx inot) = true)) ∧
    (∃ b f fe2,
      validate_rule env gv pops A (.dictV [("or", .listV rs)]) attr ctx inot
          fe am = .ok (b, f, fe2) ∧
      (b = true ↔
        ∃ c ∈ rs, passOfB (vrB env gv pops A c attr ctx inot) = true)) ∧
    (∃ b f fe2,
      validate_rule env gv pops A (.dictV [("not", r1)]) attr ctx inot fe am =
        .ok (b, f, fe2) ∧
      (b = true ↔ ¬ (passOfB (vrB env gv pops A r1 attr ctx true) = true))) := by
  refine ⟨?_, ?_, ?_⟩
  · obtain ⟨f, fe2, h⟩ := validate_and_rule env gv pops A rs attr ctx inot am
      fe hok
    exact ⟨_, f, fe2, h, List.all_eq_true⟩
  · obtain ⟨f, fe2, h⟩ := validate_or_rule env gv pops A rs attr ctx inot am
      fe hok
    exact ⟨_, f, fe2, h, List.any_eq_true⟩
  · obtain ⟨⟨b1, f1⟩, h1⟩ := hok1
    obtain ⟨f, fe2, h⟩ := validate_not_rule env gv pops A r1 attr ctx inot am
      fe b1 f1 h1
    refine ⟨!b1, f, fe2, h, ?_⟩
    rw [h1]
    show (!b1) = true ↔ ¬ (b1 = true)
    cases b1 <;> simp

/-- Witness for C1 at a concrete input: the attribute dict
`{"a": 1}`, `rs = [{"a": 1}]`, `r1 = {"a": 2}`. -/
theorem c1_witness :
    (∃ b f fe2,
      validate_rule env0 [] [] (.dictV [("a", .intV 1)])
          (.dictV [("and", .listV [Val.dictV [("a", .intV 1)]])]) "p" "c" false
          Option.none false = .ok (b, f, fe2) ∧
      (b = true ↔ ∀ c ∈ [Val.dictV [("a", .intV 1)]],
        passOfB (vrB env0 [] [] (.dictV [("a", .intV 1)]) c "p" "c" false) =
          true)) ∧
    (∃ b f fe2,
      validate_rule env0 [] [] (.dictV [("a", .intV 1)])
          (.dictV [("or", .listV [Val.dictV [("a", .intV 1)]])]) "p" "c" false
          Option.none false = .ok (b, f, fe2) ∧
      (b = true ↔ ∃ c ∈ [Val.dictV [("a", .intV 1)]],
        passOfB (vrB env0 [] [] (.dictV [("a", .intV 1)]) c "p" "c" false) =
          true)) ∧
    (∃ b f fe2,
      validate_rule env0 [] [] (.dictV [("a", .intV 1)])
          (.dictV [("not", .dictV [("a", .intV 2)])]) "p" "c" false Option.none
          false = .ok (b, f, fe2) ∧
      (b = true ↔ ¬ (passOfB (vrB env0 [] [] (.dictV [("a", .intV 1)])
          (.dictV [("a", .intV 2)]) "p" "c" true) = true))) :=
  c1_validate_rule_boolean_composition env0 [] [] (.dictV [("a", .intV 1)])
    [Val.dictV [("a", .intV 1)]] (.dictV [("a", .intV 2)]) "p" "c" false false
    Option.none
    (by
      intro c hc
      simp only [List.mem_singleton] at hc
      subst hc
      exact ⟨(true, []), rfl⟩)
    ⟨(false, []), rfl⟩

/-! Claim C2 -/

theorem list_any_bang (l : List Val) (g : Val → Bool) :
    (l.any fun c => !(g c)) = !(l.all g) := by
  induction l with
  | nil => simp
  | cons c rest ih => simp [ih, Bool.not_and]

theorem list_all_bang (l : List Val) (g : Val → Bool) :
    (l.all fun c => !(g c)) = !(l.any g) := by
  induction l with
  | nil => simp
  | cons c rest ih => simp [ih, Bool.not_or]

theorem list_any_congr {l : List Val} {f g : Val → Bool}
    (h : ∀ x ∈ l, f x = g x) : l.any f = l.any g := by
  induction l with
  | nil => rfl
  | cons c rest ih =>
    simp only [List.any_cons]
    rw [h c (List.mem_cons_self c rest),
      ih (fun x hx => h x (List.mem_cons_of_mem c hx))]

theorem list_all_congr {l : List Val} {f g : Val → Bool}
    (h : ∀ x ∈ l, f x = g x) : l.all f = l.all g := by
  induction l with
  | nil => rfl
  | cons c rest ih =>
    simp only [List.all_cons]
    rw [h c (List.mem_cons_self c rest),
      ih (fun x hx => h x (List.mem_cons_of_mem c hx))]

/-- The canonical evaluation of a `{"not": c}` wrapper flips the
canonical evaluation of `c`. -/
theorem vrB_not (env : Env) (gv : GlobalVars) (pops : POps) (A c : Val)
    (attr ctx : String) (inot : Bool) (b : Bool) (f0 : List String)
    (h : vrB env gv pops A c attr ctx true = .ok (b, f0)) :
    ∃ f, vrB env gv pops A (.dictV [("not", c)]) attr ctx inot = .ok (!b, f) := by
  obtain ⟨f, fe2, hv⟩ := validate_not_rule env gv pops A c attr ctx inot false
    Option.none b f0 h
  exact ⟨f, by simp only [vrB, hv, shapeV, Except.map]⟩

/-- C2: De Morgan's laws over the engine's pass/fail booleans: provided
each sub-rule's evaluation returns, `{"not": {"and": rs}}` computes the
same boolean as `{"or": [{"not": r} for r in rs]}`, and
`{"not": {"or": rs}}` the same boolean as
`{"and": [{"not": r} for r in rs]}`. -/
theorem c2_de_morgan (env : Env) (gv : GlobalVars) (pops : POps) (A : Val)
    (rs : List Val) (attr ctx : String) (inot am : Bool)
    (fe : Option (List String))
    (hok : ∀ c ∈ rs, ∃ r, vrB env gv pops A c attr ctx true = .ok r) :
    (∃ b f1 fe1 f2 fe2,
      validate_rule env gv pops A
          (.dictV [("not", .dictV [("and", .listV rs)])]) attr ctx inot fe am =
        .ok (b, f1, fe1) ∧
      validate_rule env gv pops A
          (.dictV [("or",
            .listV (rs.map (fun r => Val.dictV [("not", r)])))]) attr ctx inot
          fe am =
        .ok (b, f2, fe2)) ∧
    (∃ b f1 fe1 f2 fe2,
      validate_rule env gv pops A
          (.dictV [("not", .dictV [("or", .listV rs)])]) attr ctx inot fe am =
        .ok (b, f1, fe1) ∧
      validate_rule env gv pops A
          (.dictV [("and",
            .listV (rs.map (fun r => Val.dictV [("not", r)])))]) attr ctx inot
          fe am =
        .ok (b, f2, fe2)) := by
  have hok2 : ∀ c2 ∈ rs.map (fun r => Val.dictV [("not", r)]),
      ∃ r, vrB env gv pops A c2 attr ctx inot = .ok r := by
    intro c2 hc2
    simp only [List.mem_map] at hc2
    obtain ⟨c, hc, hrw⟩ := hc2
    obtain ⟨⟨bc, fc⟩, hb⟩ := hok c hc
    obtain ⟨f, hf⟩ := vrB_not env gv pops A c attr ctx inot bc fc hb
    exact ⟨(!bc, f), hrw ▸ hf⟩
  have hmapped : ∀ c ∈ rs,
      passOfB (vrB env gv pops A (Val.dictV [("not", c)]) attr ctx inot) =
        !(passOfB (vrB env gv pops A c attr ctx true)) := by
    intro c hc
    obtain ⟨⟨bc, fc⟩, hb⟩ := hok c hc
    obtain ⟨f, hf⟩ := vrB_not env gv pops A c attr ctx inot bc fc hb
    rw [hf, hb]
    rfl
  constructor
  · -- not(and rs) vs or(map not rs)
    obtain ⟨fI, feI, hinner⟩ := validate_and_rule env gv pops A rs attr ctx
      true false Option.none hok
    have hinnerB : vrB env gv pops A (.dictV [("and", .listV rs)]) attr ctx
        true = .ok (rs.all (fun c => passOfB (vrB env gv pops A c attr ctx
          true)), fI) := by
      simp only [vrB, hinner, shapeV, Except.map]
    obtain ⟨f1, fe1, h1⟩ := validate_not_rule env gv pops A
      (.dictV [("and", .listV rs)]) attr ctx inot am fe _ fI hinnerB
    obtain ⟨f2, fe2, h2⟩ := validate_or_rule env gv pops A
      (rs.map (fun r => Val.dictV [("not", r)])) attr ctx inot am fe hok2
    have hBool : (List.map (fun r => Val.dictV [("not", r)]) rs).any
        (fun c => passOfB (vrB env gv pops A c attr ctx inot)) =
        !(rs.all fun c => passOfB (vrB env gv pops A c attr ctx true)) := by
      rw [List.any_map]
      have hcomp : ((fun c => passOfB (vrB env gv pops A c attr ctx inot)) ∘
          fun r => Val.dictV [("not", r)]) =
          fun c => passOfB (vrB env gv pops A (Val.dictV [("not", c)]) attr ctx
            inot) := rfl
      rw [hcomp, list_any_congr hmapped, list_any_bang]
    rw [hBool] at h2
    exact ⟨_, f1, fe1, f2, fe2, h1, h2⟩
  · -- not(or rs) vs and(map not rs)
    obtain ⟨fI, feI, hinner⟩ := validate_or_rule env gv pops A rs attr ctx
      true false Option.none hok
    have hinnerB : vrB env gv pops A (.dictV [("or", .listV rs)]) attr ctx
        true = .ok (rs.any (fun c => passOfB (vrB env gv pops A c attr ctx
          true)), fI) := by
      simp only [vrB, hinner, shapeV, Except.map]
    obtain ⟨f1, fe1, h1⟩ := validate_not_rule env gv pops A
      (.dictV [("or", .listV rs)]) attr ctx inot am fe _ fI hinnerB
    obtain ⟨f2, fe2, h2⟩ := validate_and_rule env gv pops A
      (rs.map (fun r => Val.dictV [("not", r)])) attr ctx inot am fe hok2
    have hBool : (List.map (fun r => Val.dictV [("not", r)]) rs).all
        (fun c => passOfB (vrB env gv pops A c attr ctx inot)) =
        !(rs.any fun c => passOfB (vrB env gv pops A c attr ctx true)) := by
      rw [List.all_map]
      have hcomp : ((fun c => passOfB (vrB env gv pops A c attr ctx inot)) ∘
          fun r => Val.dictV [("not", r)]) =
          fun c => passOfB (vrB env gv pops A (Val.dictV [("not", c)]) attr ctx
            inot) := rfl
      rw [hcomp, list_all_congr hmapped, list_all_bang]
    rw [hBool] at h2
    exact ⟨_, f1, fe1, f2, fe2, h1, h2⟩

/-- Witness for C2 at a concrete input. -/
theorem c2_witness :
    (∃ b f1 fe1 f2 fe2,
      validate_rule env0 [] [] (.dictV [("a", .intV 1)])
          (.dictV [("not", .dictV [("and",
            .listV [Val.dictV [("a", .intV 1)]])])]) "p" "c" false Option.none
          false = .ok (b, f1, fe1) ∧
      validate_rule env0 [] [] (.dictV [("a", .intV 1)])
          (.dictV [("or", .listV ([Val.dictV [("a", .intV 1)]].map
            (fun r => Val.dictV [("not", r)])))]) "p" "c" false Option.none
          false = .ok (b, f2, fe2)) ∧
    (∃ b f1 fe1 f2 fe2,
      validate_rule env0 [] [] (.dictV [("a", .intV 1)])
          (.dictV [("not", .dictV [("or",
            .listV [Val.dictV [("a", .intV 1)]])])]) "p" "c" false Option.none
          false = .ok (b, f1, fe1) ∧
      validate_rule env0 [] [] (.dictV [("a", .intV 1)])
          (.dictV [("and", .listV ([Val.dictV [("a", .intV 1)]].map
            (fun r => Val.dictV [("not", r)])))]) "p" "c" false Option.none
          false = .ok (b, f2, fe2)) :=
  c2_de_morgan env0 [] [] (.dictV [("a", .intV 1)])
    [Val.dictV [("a", .intV 1)]] "p" "c" false false Option.none
    (by
      intro c hc
      simp only [List.mem_singleton] at hc
      subst hc
      exact ⟨(true, []), rfl⟩)

/-! Claim C9 -/

theorem validateAttrs_pass (env : Env) (gv : GlobalVars) (pops : POps)
    (ad : List (String × Val)) (ctx : String) (inot am : Bool) :
    ∀ (items : List (String × Val)) (ap : Bool) (af : List String)
      (fe : Option (List String)) (b : Bool) (f : List String)
      (fe2 : Option (List String)),
      validateAttrs env gv pops ad ctx inot am items ap af fe =
        .ok (b, f, fe2) → b = true → f = af ∧ ap = true := by
  intro items
  induction items with
  | nil =>
    intro ap af fe b f fe2 h hb
    simp only [validateAttrs, Except.ok.injEq, Prod.mk.injEq] at h
    exact ⟨h.2.1.symm, by rw [h.1, hb]⟩
  | cons hd t ih =>
    intro ap af fe b f fe2 h hb
    obtain ⟨name, condition⟩ := hd
    cases hl : lookupVal name ad with
    | none =>
      simp only [validateAttrs, hl] at h
      obtain ⟨_, habs⟩ := ih _ _ _ _ _ _ h hb
      exact absurd habs (by simp)
    | some value =>
      simp only [validateAttrs, hl] at h
      cases hc : compare env gv pops value condition name ctx (some []) with
      | error e => rw [hc] at h; exact absurd h (by simp)
      | ok r =>
        obtain ⟨result, bf⟩ := r
        rw [hc] at h
        obtain ⟨hf, hseed⟩ := ih _ _ _ _ _ _ h hb
        have hres : ap = true ∧ result = true := by
          constructor <;> [skip; skip] <;>
            · cases ap <;> cases result <;> simp_all
        refine ⟨?_, hres.1⟩
        rw [hf, hres.2]
        simp [hres.2]

theorem vrAndList_pass (env : Env) (gv : GlobalVars) (pops : POps) (A : Val)
    (attr ctx : String) (inot : Bool) :
    ∀ (conds : List Val) (n : Nat) (fe : Option (List String)) (ap : Bool)
      (af : List String) (b : Bool) (f : List String)
      (fe2 : Option (List String)),
      vrAndList env gv pops A attr ctx inot n conds fe ap af =
        .ok (b, f, fe2) → b = true → f = af ∧ ap = true := by
  intro conds
  induction conds with
  | nil =>
    intro n fe ap af b f fe2 h hb
    cases n with
    | zero => exact absurd h (by simp [vrAndList])
    | succ n' =>
      simp only [vrAndList, Except.ok.injEq, Prod.mk.injEq] at h
      exact ⟨h.2.1.symm, by rw [h.1, hb]⟩
  | cons c rest ih =>
    intro n fe ap af b f fe2 h hb
    cases n with
    | zero => exact absurd h (by simp [vrAndList])
    | succ n' =>
      simp only [vrAndList] at h
      cases hc : vrGo env gv pops n' A c attr ctx inot fe false with
      | error e => rw [hc] at h; exact absurd h (by simp)
      | ok r =>
        obtain ⟨p, cf, fy⟩ := r
        rw [hc] at h
        obtain ⟨hf, hseed⟩ := ih _ _ _ _ _ _ _ h hb
        have hres : ap = true ∧ p = true := by
          cases ap <;> cases p <;> simp_all
        refine ⟨?_, hres.1⟩
        rw [hf, hres.2]
        simp

theorem vrOrList_pass (env : Env) (gv : GlobalVars) (pops : POps) (A : Val)
    (attr ctx : String) (inot : Bool) :
    ∀ (conds : List Val) (n : Nat) (fe : Option (List String))
      (af f : List String) (fe2 : Option (List String)),
      vrOrList env gv pops A attr ctx inot n conds fe af =
        .ok (true, f, fe2) → f = [] := by
  intro conds
  induction conds with
  | nil =>
    intro n fe af f fe2 h
    cases n with
    | zero => exact absurd h (by simp [vrOrList])
    | succ n' => simp [vrOrList] at h
  | cons c rest ih =>
    intro n fe af f fe2 h
    cases n with
    | zero => exact absurd h (by simp [vrOrList])
    | succ n' =>
      simp only [vrOrList] at h
      cases hc : vrGo env gv pops n' A c attr ctx inot fe false with
      | error e => rw [hc] at h; exact absurd h (by simp)
      | ok r =>
        obtain ⟨p, cf, fy⟩ := r
        rw [hc] at h
        cases p with
        | true =>
          simp only [if_true] at h
          simp only [Except.ok.injEq, Prod.mk.injEq] at h
          exact h.2.1.symm
        | false =>
          simp only [Bool.false_eq_true, if_false] at h
          exact ih _ _ _ _ _ h

theorem validateBareLeaf_pass (env : Env) (gv : GlobalVars) (pops : POps)
    (A cond : Val) (attr ctx : String) (inot : Bool)
    (fe : Option (List String)) (f : List String)
    (fe2 : Option (List String))
    (h : validateBareLeaf env gv pops A cond attr ctx inot fe =
      .ok (true, f, fe2)) : f = [] := by
  unfold validateBareLeaf at h
  cases hc : compare env gv pops A (.dictV [("eq", cond)]) attr ctx (some []) with
  | error e => rw [hc] at h; exact absurd h (by simp)
  | ok r =>
    obtain ⟨result, bf⟩ := r
    rw [hc] at h
    cases result <;> cases inot <;> simp_all

theorem validateNonDictAttrs_pass (env : Env) (gv : GlobalVars) (pops : POps)
    (A rule : Val) (attr ctx : String) (inot : Bool)
    (fe : Option (List String)) (f : List String)
    (fe2 : Option (List String))
    (h : validateNonDictAttrs env gv pops A rule attr ctx inot fe =
      .ok (true, f, fe2)) : f = [] := by
  unfold validateNonDictAttrs at h
  cases hc : compare env gv pops A rule attr ctx (some []) with
  | error e => rw [hc] at h; exact absurd h (by simp)
  | ok r =>
    obtain ⟨result, bf⟩ := r
    rw [hc] at h
    cases result <;> cases inot <;> simp_all

theorem vrGo_pass_empty (env : Env) (gv : GlobalVars) (pops : POps)
    (n : Nat) (A rule : Val) (attr ctx : String) (inot am : Bool)
    (fe : Option (List String)) (f : List String)
    (fe2 : Option (List String))
    (h : vrGo env gv pops n A rule attr ctx inot fe am = .ok (true, f, fe2)) :
    f = [] := by
  cases n with
  | zero => exact absurd h (by simp [vrGo])
  | succ n' =>
    cases rule with
    | dictV xs =>
      cases ha : lookupVal "and" xs with
      | some av =>
        simp only [vrGo, ha] at h
        cases hi : iterElems av with
        | error e => rw [hi] at h; exact absurd h (by simp)
        | ok conds =>
          rw [hi] at h
          exact (vrAndList_pass env gv pops A attr ctx inot conds n' fe true []
            true f fe2 h rfl).1
      | none =>
        cases ho : lookupVal "or" xs with
        | some ov =>
          simp only [vrGo, ha, ho] at h
          cases hi : iterElems ov with
          | error e => rw [hi] at h; exact absurd h (by simp)
          | ok conds =>
            rw [hi] at h
            exact vrOrList_pass env gv pops A attr ctx inot conds n' fe [] f
              fe2 h
        | none =>
          cases hno : lookupVal "not" xs with
          | some inner =>
            simp only [vrGo, ha, ho, hno] at h
            cases hc : vrGo env gv pops n' A inner attr ctx true fe false with
            | error e => rw [hc] at h; exact absurd h (by simp)
            | ok r =>
              obtain ⟨p, pf, fy⟩ := r
              rw [hc] at h
              cases p <;> simp_all
          | none =>
            cases A with
            | dictV ad =>
              simp only [vrGo, ha, ho, hno] at h
              exact (validateAttrs_pass env gv pops ad ctx inot am xs true []
                fe true f fe2 h rfl).1
            | noneV =>
              simp only [vrGo, ha, ho, hno] at h
              exact validateNonDictAttrs_pass env gv pops _ _ attr ctx inot fe
                f fe2 h
            | boolV b =>
              simp only [vrGo, ha, ho, hno] at h
              exact validateNonDictAttrs_pass env gv pops _ _ attr ctx inot fe
                f fe2 h
            | intV i =>
              simp only [vrGo, ha, ho, hno] at h
              exact validateNonDictAttrs_pass env gv pops _ _ attr ctx inot fe
                f fe2 h
            | floatV q =>
              simp only [vrGo, ha, ho, hno] at h
              exact validateNonDictAttrs_pass env gv pops _ _ attr ctx inot fe
                f fe2 h
            | strV s =>
              simp only [vrGo, ha, ho, hno] at h
              exact validateNonDictAttrs_pass env gv pops _ _ attr ctx inot fe
                f fe2 h
            | bytesV s =>
              simp only [vrGo, ha, ho, hno] at h
              exact validateNonDictAttrs_pass env gv pops _ _ attr ctx inot fe
                f fe2 h
            | listV l =>
              simp only [vrGo, ha, ho, hno] at h
              exact validateNonDictAttrs_pass env gv pops _ _ attr ctx inot fe
                f fe2 h
    | noneV => exact validateBareLeaf_pass env gv pops _ _ attr ctx inot fe f fe2 h
    | boolV b => exact validateBareLeaf_pass env gv pops _ _ attr ctx inot fe f fe2 h
    | intV i => exact validateBareLeaf_pass env gv pops _ _ attr ctx inot fe f fe2 h
    | floatV q => exact validateBareLeaf_pass env gv pops _ _ attr ctx inot fe f fe2 h
    | strV s => exact validateBareLeaf_pass env gv pops _ _ attr ctx inot fe f fe2 h
    | bytesV s => exact validateBareLeaf_pass env gv pops _ _ attr ctx inot fe f fe2 h
    | listV l => exact validateBareLeaf_pass env gv pops _ _ attr ctx inot fe f fe2 h

/-- C9: whenever `validate_rule` returns with first component `True`,
the returned failure list is empty (the converse need not hold: a
`False` result inside a `not` carries an empty list). -/
theorem c9_pass_implies_no_failures (env : Env) (gv : GlobalVars)
    (pops : POps) (A rule : Val) (attr ctx : String) (inot am : Bool)
    (fe : Option (List String)) (f : List String)
    (fe2 : Option (List String))
    (h : validate_rule env gv pops A rule attr ctx inot fe am =
      .ok (true, f, fe2)) : f = [] :=
  vrGo_pass_empty env gv pops (bnd rule) A rule attr ctx inot am fe f fe2 h

/-- Witness for C9 at a concrete input. -/
theorem c9_witness :
    validate_rule env0 [] [] (.dictV [("a", .intV 1)])
        (.dictV [("a", .intV 1)]) "p" "c" false Option.none false =
      .ok (true, [], Option.none) ∧ ([] : List String) = [] :=
  ⟨rfl, c9_pass_implies_no_failures env0 [] [] (.dictV [("a", .intV 1)])
    (.dictV [("a", .intV 1)]) "p" "c" false false Option.none [] Option.none
    rfl⟩

/-! Claim C4 -/

/-- C4: comparison evaluation is idempotent: two successive calls of
`compare` with the same arguments and the same `global_vars` return the
same boolean, even though the first call may have mutated the
`fatal_err` list that the second call receives (`gv` is an explicit
input of the embedding and is never written by the engine; plugin
operators are pure Lean functions as the claim assumes). -/
theorem c4_compare_idempotent (env : Env) (gv : GlobalVars) (pops : POps)
    (val rule : Val) (attr ctx : String) (fe fe1 fe2 : Option (List String))
    (b1 b2 : Bool)
    (h1 : compare env gv pops val rule attr ctx fe = .ok (b1, fe1))
    (h2 : compare env gv pops val rule attr ctx fe1 = .ok (b2, fe2)) :
    b1 = b2 := by
  have h := compare_fst_fe env gv pops val rule attr ctx fe fe1
  rw [h1, h2] at h
  simpa [Except.map] using h

/-- Witness for C4 at a concrete input. -/
theorem c4_witness :
    compare env0 [] [] (.intV 1) (.dictV [("eq", .intV 1)]) "a" "c"
        Option.none = .ok (true, Option.none) ∧ true = true :=
  ⟨rfl, c4_compare_idempotent env0 [] [] (.intV 1) (.dictV [("eq", .intV 1)])
    "a" "c" Option.none Option.none Option.none true true rfl rfl⟩

/-! Claim C3 (corrected) -/

/-- C3 counterexample: the rule `{"not": {"exists": True}}` requires
non-existence (`rule_implies_nonexistence` is true), the attribute
dictionary `{"exists": 2}` contains the key `"exists"`, yet
`validate_rule` passes even though the dictionary does not report
`exists: False` (2 is not `==` to `False`). -/
theorem c3_counterexample :
    rule_implies_nonexistence
        (.dictV [("not", .dictV [("exists", .boolV true)])]) = true ∧
    containsKey "exists" [("exists", Val.intV 2)] = true ∧
    validate_rule env0 [] [] (.dictV [("exists", .intV 2)])
        (.dictV [("not", .dictV [("exists", .boolV true)])]) "p" "CTX" false
        Option.none true = .ok (true, [], Option.none) ∧
    pyEq (.intV 2) (.boolV false) = false :=
  ⟨rfl, rfl, rfl, rfl⟩

/-- Values Python-equal to `False` / `True` are exactly the numeric
zeros / ones. -/
theorem pyEq_false_char {v : Val} (h : pyEq v (.boolV false) = true) :
    numOf v = 0 ∧ isNumLike v = true := by
  cases v <;> simp_all [pyEq, isNumLike, numOf]

theorem pyEq_true_char {v : Val} (h : pyEq v (.boolV true) = true) :
    numOf v = 1 ∧ isNumLike v = true := by
  cases v <;> simp_all [pyEq, isNumLike, numOf]

/-- `compare` of a boolean attribute value against a bare scalar
expected value `w` (implicit `eq`) yields the numeric comparison. -/
theorem compare_bool_eq_scalar (env : Env) (gv : GlobalVars) (b : Bool)
    (w : Val) (attr ctx : String) (hw : isNumLike w = true) :
    compare env gv [] (.boolV b) w attr ctx (some []) =
      .ok (pyEq (.boolV b) w, some []) := by
  cases w with
  | boolV b2 => rfl
  | intV n => rfl
  | floatV q => rfl
  | noneV => simp [isNumLike] at hw
  | strV s => simp [isNumLike] at hw
  | bytesV s => simp [isNumLike] at hw
  | listV l => simp [isNumLike] at hw
  | dictV d => simp [isNumLike] at hw

theorem pyEq_bool_zero {v : Val} (h0 : numOf v = 0) (hn : isNumLike v = true)
    (b : Bool) : pyEq (.boolV b) v = !b := by
  cases v <;> simp [isNumLike] at hn <;> cases b <;>
    simp_all [pyEq, numOf, isNumLike]

theorem pyEq_bool_one {v : Val} (h1 : numOf v = 1) (hn : isNumLike v = true)
    (b : Bool) : pyEq (.boolV b) v = b := by
  cases v <;> simp [isNumLike] at hn <;> cases b <;>
    simp_all [pyEq, numOf, isNumLike]

theorem pyEq_exists_false_form {rule : Val}
    (h : pyEq rule (.dictV [("exists", .boolV false)]) = true) :
    ∃ v, rule = .dictV [("exists", v)] ∧ pyEq v (.boolV false) = true := by
  cases rule with
  | dictV l =>
    match l with
    | [] => simp [pyEq] at h
    | [(k, v)] =>
      simp only [pyEq, pyEqDict, List.length_singleton, Bool.and_true] at h
      by_cases hk : k = "exists"
      · subst hk
        have hl : lookupVal "exists" [("exists", Val.boolV false)] =
            some (.boolV false) := rfl
        rw [hl] at h
        exact ⟨v, rfl, by simpa using h⟩
      · have hl : lookupVal k [("exists", Val.boolV false)] = Option.none := by
          simp only [lookupVal]
          rw [if_neg (fun hc => hk hc.symm)]
        rw [hl] at h
        simp at h
    | (a :: b2 :: t) => simp [pyEq] at h
  | noneV => simp [pyEq] at h
  | boolV b => simp [pyEq, isNumLike] at h
  | intV n => simp [pyEq, isNumLike] at h
  | floatV q => simp [pyEq, isNumLike] at h
  | strV s => simp [pyEq] at h
  | bytesV s => simp [pyEq] at h
  | listV xs => simp [pyEq] at h

theorem pyEq_exists_true_form {rule : Val}
    (h : pyEq rule (.dictV [("exists", .boolV true)]) = true) :
    ∃ v, rule = .dictV [("exists", v)] ∧ pyEq v (.boolV true) = true := by
  cases rule with
  | dictV l =>
    match l with
    | [] => simp [pyEq] at h
    | [(k, v)] =>
      simp only [pyEq, pyEqDict, List.length_singleton, Bool.and_true] at h
      by_cases hk : k = "exists"
      · subst hk
        have hl : lookupVal "exists" [("exists", Val.boolV true)] =
            some (.boolV true) := rfl
        rw [hl] at h
        exact ⟨v, rfl, by simpa using h⟩
      · have hl : lookupVal k [("exists", Val.boolV true)] = Option.none := by
          simp only [lookupVal]
          rw [if_neg (fun hc => hk hc.symm)]
        rw [hl] at h
        simp at h
    | (a :: b2 :: t) => simp [pyEq] at h
  | noneV => simp [pyEq] at h
  | boolV b => simp [pyEq, isNumLike] at h
  | intV n => simp [pyEq, isNumLike] at h
  | floatV q => simp [pyEq, isNumLike] at h
  | strV s => simp [pyEq] at h
  | bytesV s => simp [pyEq] at h
  | listV xs => simp [pyEq] at h

/-- Evaluating the one-attribute rule `{"exists": w}` against a dict
whose `"exists"` value is the boolean `b`. -/
theorem validate_exists_leaf (env : Env) (gv : GlobalVars)
    (ad : List (String × Val)) (b : Bool) (w : Val) (attr ctx : String)
    (inot am : Bool) (fe : Option (List String))
    (hA : lookupVal "exists" ad = some (.boolV b))
    (hnum : isNumLike w = true) :
    validate_rule env gv [] (.dictV ad) (.dictV [("exists", w)]) attr ctx inot
        fe am =
      .ok (pyEq (.boolV b) w,
        if !(pyEq (.boolV b) w) && !inot then
          [ctx ++ ": " ++ "exists" ++ " failed condition " ++ pyStr w]
        else [], fe) := by
  have hstep : validate_rule env gv [] (.dictV ad) (.dictV [("exists", w)])
      attr ctx inot fe am =
      validateAttrs env gv [] ad ctx inot am [("exists", w)] true [] fe := rfl
  rw [hstep]
  simp only [validateAttrs, hA, compare_bool_eq_scalar env gv b w "exists" ctx
    hnum]
  have hext : extendIfTruthy fe (some []) = fe := rfl
  rw [hext]
  cases hpe : pyEq (.boolV b) w <;> cases inot <;>
    simp [validateAttrs]

/-- The `"not"` branch of `validate_rule` for a dict rule with no
`"and"`/`"or"` key, in terms of the canonical evaluation of the
negated sub-rule. -/
theorem validate_not_general (env : Env) (gv : GlobalVars) (pops : POps)
    (A : Val) (l : List (String × Val)) (inner : Val) (attr ctx : String)
    (inot am : Bool) (fe : Option (List String)) (b : Bool) (f0 : List String)
    (hand : lookupVal "and" l = Option.none)
    (hor : lookupVal "or" l = Option.none)
    (hnot : lookupVal "not" l = some inner)
    (hok : vrB env gv pops A inner attr ctx true = .ok (b, f0)) :
    ∃ f fe2, validate_rule env gv pops A (.dictV l) attr ctx inot fe am =
      .ok (!b, f, fe2) := by
  have hfuel : bnd inner ≤ bndD l := by
    have := lookup_bnd hnot
    omega
  have hsh : shapeV (vrGo env gv pops (bndD l) A inner attr ctx true fe false) =
      .ok (b, f0) := by
    rw [vrGo_eq_validate env gv pops _ A inner attr ctx true false fe hfuel]
    rw [validate_rule_fe env gv pops A inner attr ctx true false fe Option.none]
    exact hok
  obtain ⟨fy, hy⟩ := shapeV_ok hsh
  have hb : validate_rule env gv pops A (.dictV l) attr ctx inot fe am =
      vrGo env gv pops (bndD l + 1) A (.dictV l) attr ctx inot fe am := rfl
  rw [hb]
  simp only [vrGo, hand, hor, hnot, hy]
  cases b with
  | true =>
    exact ⟨[ctx ++ ": " ++ attr ++ " failed \x27not\x27 condition: " ++
      pyStr inner], fy, rfl⟩
  | false => exact ⟨[], fy, rfl⟩

/-- C3 (amended): for a rule that requires non-existence — restricted to
the shapes `{"exists": False}` (up to Python `==`) and a dict whose
`"not"` entry equals `{"exists": True}` and that has no `"and"`/`"or"`
key — and an attribute dictionary whose `"exists"` value is a *boolean*
`b`, `validate_rule` passes iff `b = False`; in particular the dummy
dictionary `{"exists": False}` passes and a probed dictionary with
`"exists": True` fails.  (The counterexample shows the boolean
restriction is necessary; a rule dict that also contains an
`"and"`/`"or"` key is dispatched to that branch instead of `"not"`.) -/
theorem c3_nonexistence_amended (env : Env) (gv : GlobalVars)
    (ad : List (String × Val)) (b : Bool) (rule : Val) (attr ctx : String)
    (fe : Option (List String)) (am : Bool)
    (hA : lookupVal "exists" ad = some (.boolV b))
    (hrule : pyEq rule (.dictV [("exists", .boolV false)]) = true ∨
      (∃ l, rule = .dictV l ∧ lookupVal "and" l = Option.none ∧
        lookupVal "or" l = Option.none ∧
        ∃ inner, lookupVal "not" l = some inner ∧
          pyEq inner (.dictV [("exists", .boolV true)]) = true)) :
    rule_implies_nonexistence rule = true ∧
    ∃ f fe2, validate_rule env gv [] (.dictV ad) rule attr ctx false fe am =
      .ok (!b, f, fe2) := by
  rcases hrule with h1 | ⟨l, hl, hand, hor, inner, hnot, hinner⟩
  · constructor
    · simp only [rule_implies_nonexistence, h1, if_true]
    · obtain ⟨v, hv, hvf⟩ := pyEq_exists_false_form h1
      subst hv
      obtain ⟨h0, hn⟩ := pyEq_false_char hvf
      have heval := validate_exists_leaf env gv ad b v attr ctx false am fe hA
        hn
      rw [pyEq_bool_zero h0 hn b] at heval
      exact ⟨_, fe, heval⟩
  · constructor
    · subst hl
      simp only [rule_implies_nonexistence]
      by_cases hq : pyEq (Val.dictV l) (.dictV [("exists", .boolV false)]) = true
      · simp [hq]
      · simp only [hq]
        simp only [Bool.false_eq_true, if_false]
        rw [hnot]
        exact hinner
    · obtain ⟨w, hw, hwt⟩ := pyEq_exists_true_form hinner
      subst hw
      obtain ⟨h1n, hn⟩ := pyEq_true_char hwt
      subst hl
      have hEvalNone := validate_exists_leaf env gv ad b w attr ctx true false
        Option.none hA hn
      rw [pyEq_bool_one h1n hn b] at hEvalNone
      have hinnerB : vrB env gv [] (.dictV ad) (.dictV [("exists", w)]) attr
          ctx true = .ok (b, if !b && !true then
            [ctx ++ ": " ++ "exists" ++ " failed condition " ++ pyStr w]
          else []) := by
        simp only [vrB, hEvalNone, shapeV, Except.map]
      rw [show (!b && !true) = false by simp] at hinnerB
      simp only [Bool.false_eq_true, if_false] at hinnerB
      exact validate_not_general env gv [] (.dictV ad) l
        (.dictV [("exists", w)]) attr ctx false am fe b [] hand hor hnot
        hinnerB

/-- Witness for the amended C3, at the dummy dictionary
`{"exists": False}` and the rule `{"exists": False}`. -/
theorem c3_witness :
    rule_implies_nonexistence (.dictV [("exists", .boolV false)]) = true ∧
    ∃ f fe2, validate_rule env0 [] [] (.dictV [("exists", .boolV false)])
        (.dictV [("exists", .boolV false)]) "p" "c" false Option.none true =
      .ok (!false, f, fe2) :=
  c3_nonexistence_amended env0 [] [("exists", .boolV false)] false
    (.dictV [("exists", .boolV false)]) "p" "c" Option.none true rfl
    (Or.inl rfl)

/-! Claim C5 (corrected) -/

/-- Does a tree consist only of the constructs `eval_node` evaluates:
numeric literals, `VALID_OPS` binary operators, and the unary `+`/`-`
in `VALID_OPS`? -/
def goodTree : Ast → Bool
  | .num _ => true
  | .binOp op l r => (validOpsB op).isSome && goodTree l && goodTree r
  | .unaryOp op e => (validOpsU op).isSome && goodTree e
  | _ => false

/-- Is a node of a kind other than number / binary / unary operation? -/
def badKind : Ast → Bool
  | .num _ => false
  | .binOp _ _ _ => false
  | .unaryOp _ _ => false
  | _ => true

/-- Is the outcome a raised `ValueError`? -/
def isValueErrorRes : Except PyErr NumV → Bool
  | .error (.valueError _) => true
  | _ => false

/-- C5 counterexample: `eval_expr("~1")` — whose post-substitution parse
tree is `UnaryOp(Invert, Num(1))`, a construct outside `VALID_OPS` —
raises `KeyError` (the `VALID_OPS[type(node.op)]` subscript), not
`ValueError` as the claim states. -/
theorem c5_counterexample :
    eval_expr env0 [] "~1" (.noneV) =
      .error (.keyError "<class \x27ast.Invert\x27>") ∧
    isValueErrorRes (eval_expr env0 [] "~1" (.noneV)) = false :=
  ⟨rfl, rfl⟩

/-- C5 (amended): `eval_node` evaluates only numeric literals, the
unary operators in `VALID_OPS` and the binary operators in `VALID_OPS`
(any `.ok` result comes from such a tree); a node of any *other kind*
(name, call, attribute access, comparison, string constant, ...) raises
`ValueError`; and a syntactically invalid input raises `ValueError`
from `eval_expr`.  An in-kind node whose operator class is missing from
`VALID_OPS` (`@`, `~`, `not`) instead raises `KeyError` — see the
counterexample. -/
theorem c5_eval_expr_safety_amended :
    (∀ (env : Env) (t : Ast) (v : NumV),
      evalNode env t = .ok v → goodTree t = true) ∧
    (∀ (env : Env) (t : Ast),
      badKind t = true → ∃ m, evalNode env t = .error (.valueError m)) ∧
    (∀ (env : Env) (gv : GlobalVars) (s : String) (value : Val) (e : String),
      env.parse (substVars gv value s) = .error e →
      ∃ m, eval_expr env gv s value = .error (.valueError m)) := by
  refine ⟨?_, ?_, ?_⟩
  · intro env t
    induction t with
    | num n => intro v _; rfl
    | binOp op l r ihl ihr =>
      intro v h
      simp only [evalNode] at h
      cases hop : validOpsB op with
      | none => rw [hop] at h; exact absurd h (by simp)
      | some f =>
        rw [hop] at h
        simp only [bind, Except.bind] at h
        cases hl : evalNode env l with
        | error e => rw [hl] at h; exact absurd h (by simp)
        | ok a =>
          rw [hl] at h
          cases hr : evalNode env r with
          | error e => rw [hr] at h; exact absurd h (by simp)
          | ok b =>
            simp only [goodTree, hop, Option.isSome_some, Bool.true_and]
            rw [Bool.and_eq_true]
            exact ⟨ihl a hl, ihr b hr⟩
    | unaryOp op e ih =>
      intro v h
      simp only [evalNode] at h
      cases hop : validOpsU op with
      | none => rw [hop] at h; exact absurd h (by simp)
      | some f =>
        rw [hop] at h
        simp only [bind, Except.bind] at h
        cases he : evalNode env e with
        | error er => rw [he] at h; exact absurd h (by simp)
        | ok a =>
          simp only [goodTree, hop, Option.isSome_some, Bool.true_and]
          exact ih a he
    | nameA id => intro v h; exact absurd h (by simp [evalNode])
    | callA => intro v h; exact absurd h (by simp [evalNode])
    | attributeA => intro v h; exact absurd h (by simp [evalNode])
    | compareA => intro v h; exact absurd h (by simp [evalNode])
    | constStrA s => intro v h; exact absurd h (by simp [evalNode])
    | otherA s => intro v h; exact absurd h (by simp [evalNode])
  · intro env t h
    cases t with
    | num n => simp [badKind] at h
    | binOp op l r => simp [badKind] at h
    | unaryOp op e => simp [badKind] at h
    | nameA id => exact ⟨_, rfl⟩
    | callA => exact ⟨_, rfl⟩
    | attributeA => exact ⟨_, rfl⟩
    | compareA => exact ⟨_, rfl⟩
    | constStrA s => exact ⟨_, rfl⟩
    | otherA s => exact ⟨_, rfl⟩
  · intro env gv s value e h
    refine ⟨"Invalid expression syntax for " ++ substVars gv value s ++ ": " ++
      e, ?_⟩
    show (match env.parse (substVars gv value s) with
      | Except.error e2 =>
        Except.error (PyErr.valueError ("Invalid expression syntax for " ++
          substVars gv value s ++ ": " ++ e2))
      | Except.ok tree => evalNode env tree) = _
    rw [h]

/-- Witness for the amended C5. -/
theorem c5_witness :
    (evalNode env0 (.num (.intN 3)) = .ok (.intN 3) →
      goodTree (.num (.intN 3)) = true) ∧
    (∃ m, evalNode env0 (.nameA "x") = .error (.valueError m)) ∧
    (∃ m, eval_expr env0 [] "(" (.noneV) = .error (.valueError m)) :=
  ⟨fun h => c5_eval_expr_safety_amended.1 env0 (.num (.intN 3)) (.intN 3) h,
   c5_eval_expr_safety_amended.2.1 env0 (.nameA "x") rfl,
   c5_eval_expr_safety_amended.2.2 env0 [] "(" (.noneV) "invalid syntax" rfl⟩

/-! Claim C6 -/

theorem takeWhile_all {p : Char → Bool} :
    ∀ {l : List Char}, (∀ x ∈ l, p x = true) → l.takeWhile p = l := by
  intro l
  induction l with
  | nil => intro _; rfl
  | cons c rest ih =>
    intro h
    simp only [List.takeWhile_cons, h c (List.mem_cons_self c rest), if_true]
    rw [ih (fun x hx => h x (List.mem_cons_of_mem c hx))]

theorem dropWhile_all {p : Char → Bool} :
    ∀ {l : List Char}, (∀ x ∈ l, p x = true) → l.dropWhile p = [] := by
  intro l
  induction l with
  | nil => intro _; rfl
  | cons c rest ih =>
    intro h
    simp only [List.dropWhile_cons, h c (List.mem_cons_self c rest), if_true]
    exact ih (fun x hx => h x (List.mem_cons_of_mem c hx))

theorem substGo_nil (gv : GlobalVars) (value : Val) (n : Nat) :
    substGo gv value n [] = [] := by
  cases n <;> rfl

/-- The Python AST of `str(v)` for a number `v`: a plain `Num` literal,
wrapped in `UnaryOp(USub, ...)` when `v` is negative (the parser reads
the leading minus as unary negation). -/
def numLitTree : NumV → Ast
  | .intN n => if n < 0 then .unaryOp .usubU (.num (.intN (-n))) else .num (.intN n)
  | .floatN q =>
    if q < 0 then .unaryOp .usubU (.num (.floatN (-q))) else .num (.floatN q)

/-- C6: `eval_expr` substitutes `$name` tokens from the global scope
first with the local scope (`value` bound to the left-side value) as
fallback: for a well-formed identifier, `$name` alone is replaced
exactly as `replace_var` prescribes; and for every numeric value `v`
with non-empty `str(v)` and no non-empty `value` entry in
`global_vars`, `eval_expr("$value", v)` returns `v` (given that the
parser round-trips the numeric literal, which Python's does). -/
theorem c6_eval_expr_dollar_value :
    (∀ (gv : GlobalVars) (value : Val) (name : String) (c : Char)
       (cs : List Char),
      name.data = c :: cs → identStartCh c = true →
      (∀ x ∈ cs, identCh x = true) →
      substVars gv value ("$" ++ name) = replaceVar gv value name) ∧
    (∀ (env : Env) (gv : GlobalVars) (v : NumV),
      pyStr (numToVal v) ≠ "" →
      pyStr (getVarD gv "value" (.strV "")) = "" →
      env.parse (pyStr (numToVal v)) = .ok (numLitTree v) →
      eval_expr env gv "$value" (numToVal v) = .ok v) := by
  have hsub : ∀ (gv : GlobalVars) (value : Val) (name : String) (c : Char)
      (cs : List Char),
      name.data = c :: cs → identStartCh c = true →
      (∀ x ∈ cs, identCh x = true) →
      substVars gv value ("$" ++ name) = replaceVar gv value name := by
    intro gv value name c cs hdata hstart hall
    have hd : ("$" ++ name).data = '$' :: c :: cs := by
      rw [String.data_append, hdata]
      rfl
    unfold substVars
    rw [hd]
    show String.mk (substGo gv value (cs.length + 2) ('$' :: c :: cs)) = _
    have hstep : substGo gv value (cs.length + 2) ('$' :: c :: cs) =
        (replaceVar gv value (String.mk (c :: cs.takeWhile identCh))).data ++
          substGo gv value (cs.length + 1) (cs.dropWhile identCh) := by
      simp only [substGo, hstart, if_true]
    rw [hstep, takeWhile_all hall, dropWhile_all hall, substGo_nil,
      List.append_nil]
    have hname : String.mk (c :: cs) = name := by
      rw [← hdata]
    rw [hname]
  refine ⟨hsub, ?_⟩
  intro env gv v _hne hempty hparse
  have hrep : replaceVar gv (numToVal v) "value" = pyStr (numToVal v) := by
    unfold replaceVar
    rw [hempty]
    simp
  have hv : substVars gv (numToVal v) "$value" = pyStr (numToVal v) := by
    have := hsub gv (numToVal v) "value" 'v' ['a', 'l', 'u', 'e'] rfl rfl
      (by decide)
    rw [← hrep]
    exact this
  show (match env.parse (substVars gv (numToVal v) "$value") with
    | Except.error e =>
      Except.error (PyErr.valueError ("Invalid expression syntax for " ++
        substVars gv (numToVal v) "$value" ++ ": " ++ e))
    | Except.ok tree => evalNode env tree) = .ok v
  rw [hv, hparse]
  cases v with
  | intN n =>
    by_cases hneg : n < 0
    · rw [show numLitTree (.intN n) = .unaryOp .usubU (.num (.intN (-n)))
        from by simp [numLitTree, hneg]]
      show Except.ok (NumV.intN (-(-n))) = Except.ok (NumV.intN n)
      rw [neg_neg]
    · rw [show numLitTree (.intN n) = .num (.intN n)
        from by simp [numLitTree, hneg]]
      rfl
  | floatN q =>
    by_cases hneg : q < 0
    · rw [show numLitTree (.floatN q) = .unaryOp .usubU (.num (.floatN (-q)))
        from by simp [numLitTree, hneg]]
      show Except.ok (NumV.floatN (-(-q))) = Except.ok (NumV.floatN q)
      rw [neg_neg]
    · rw [show numLitTree (.floatN q) = .num (.floatN q)
        from by simp [numLitTree, hneg]]
      rfl

/-- Witness for C6. -/
theorem c6_witness :
    substVars [] (.intV 7) ("$" ++ "value") = replaceVar [] (.intV 7) "value" ∧
    eval_expr env0 [] "$value" (numToVal (.intN 7)) = .ok (.intN 7) :=
  ⟨c6_eval_expr_dollar_value.1 [] (.intV 7) "value" 'v' ['a', 'l', 'u', 'e']
      rfl rfl (by decide),
   c6_eval_expr_dollar_value.2 env0 [] (.intN 7) (by decide) rfl rfl⟩

/-! Claim C7 (corrected) -/

/-- Is the expected value a dict containing an `"expr"` key (so that
`compare` first evaluates the expression)? -/
def hasExprKey : Val → Bool
  | .dictV d => containsKey "expr" d
  | _ => false

theorem exprStage_no (env : Env) (gv : GlobalVars) {e : Val} (val : Val)
    (h : hasExprKey e = false) : exprStage env gv e val = .ok e := by
  cases e with
  | dictV d =>
    simp only [hasExprKey, containsKey] at h
    cases hl : lookupVal "expr" d with
    | some w => rw [hl] at h; simp at h
    | none => simp only [exprStage, hl]
  | noneV => rfl
  | boolV b => rfl
  | intV n => rfl
  | floatV q => rfl
  | strV s => rfl
  | bytesV s => rfl
  | listV l => rfl

/-- C7 counterexample: the rule `{"zzz": {"expr": "("}}` contains the
operator key `zzz`, which is outside the built-in set and not a plugin
operator, and `compare` does return `False` — but the message appended
to `fatal_err` is an expression-evaluation error, not an
"Unknown comparison operator" message, because the `expr` stage aborts
first. -/
theorem c7_counterexample :
    isBuiltinOp "zzz" = false ∧
    lookupFn "zzz" [] = Option.none ∧
    compare env0 [] [] (.intV 1) (.dictV [("zzz", .dictV [("expr", .strV "(")])])
        "a" "c" (some []) =
      .ok (false, some ["c: a - Error evaluating expression: Invalid expression syntax for (: invalid syntax"]) ∧
    strContains
      "c: a - Error evaluating expression: Invalid expression syntax for (: invalid syntax"
      "Unknown comparison operator" = false :=
  ⟨rfl, rfl, rfl, rfl⟩

/-- C7 (amended): `compare` supports exactly the built-in operator set
plus plugin operators: when the evaluation reaches an operator key
whose lower-casing is outside that set and absent from `plugin_ops`
(here: the key is first, its expected value triggers no
expression-evaluation error, and it is not `identical`), `compare`
returns `False` immediately and, when `fatal_err` is supplied, appends
an "Unknown comparison operator" message; with `fatal_err = None`
nothing is appended. -/
theorem c7_unknown_operator_amended (env : Env) (gv : GlobalVars)
    (pops : POps) (val : Val) (attr ctx : String) (k : String) (e : Val)
    (rest : List (String × Val)) (l : List String)
    (hbuiltin : isBuiltinOp (pyLower k) = false)
    (hident : pyLower k ≠ "identical")
    (hplug : lookupFn (pyLower k) pops = Option.none)
    (hnoexpr : hasExprKey e = false)
    (hconv : ∃ v2, convertVal val e = .ok v2) :
    compare env gv pops val (.dictV ((k, e) :: rest)) attr ctx (some l) =
      .ok (false, some (l ++ [ctx ++ ": " ++ attr ++
        " - Unknown comparison operator: " ++ pyLower k])) ∧
    compare env gv pops val (.dictV ((k, e) :: rest)) attr ctx Option.none =
      .ok (false, Option.none) := by
  obtain ⟨v2, hv2⟩ := hconv
  have hdec : compareOpDecision env gv pops attr ctx k e val =
      .retFalseO (.amNotNone (ctx ++ ": " ++ attr ++
        " - Unknown comparison operator: " ++ pyLower k)) := by
    simp only [compareOpDecision, exprStage_no env gv val hnoexpr, hplug,
      hv2, hbuiltin]
    rw [if_neg hident]
    simp [hv2, hbuiltin]
  constructor
  · show compareItems env gv pops attr ctx ((k, e) :: rest) val true (some l) = _
    simp only [compareItems, hdec]
    rfl
  · show compareItems env gv pops attr ctx ((k, e) :: rest) val true
      Option.none = _
    simp only [compareItems, hdec]
    rfl

/-- Witness for the amended C7. -/
theorem c7_witness :
    compare env0 [] [] (.intV 1) (.dictV [("zzz", .intV 5)]) "a" "c"
        (some []) =
      .ok (false, some ([] ++ ["c: a - Unknown comparison operator: zzz"])) ∧
    compare env0 [] [] (.intV 1) (.dictV [("zzz", .intV 5)]) "a" "c"
        Option.none = .ok (false, Option.none) :=
  c7_unknown_operator_amended env0 [] [] (.intV 1) "a" "c" "zzz" (.intV 5) []
    [] rfl (by decide) rfl rfl ⟨.intV 1, rfl⟩

/-! Claim C10 -/

theorem isBuiltinOp_ne_identical {op : String} (h : isBuiltinOp op = true) :
    op ≠ "identical" := by
  intro hop
  rw [hop] at h
  exact absurd h (by decide)

theorem convertVal_num_fixpoint {s : String} {e v2 : Val}
    (h : convertVal (.strV s) e = .ok v2) (hnum : isNumLike e = true) :
    convertVal v2 e = .ok v2 := by
  simp only [convertVal, hnum, if_true] at h
  by_cases hdot : s.data.contains '.'
  · rw [if_pos hdot] at h
    cases hp : pyFloat s with
    | some q => rw [hp] at h; simp only [Except.ok.injEq] at h; rw [← h]; rfl
    | none => rw [hp] at h; exact absurd h (by simp)
  · rw [if_neg hdot] at h
    cases hp : pyInt s with
    | some n => rw [hp] at h; simp only [Except.ok.injEq] at h; rw [← h]; rfl
    | none => rw [hp] at h; exact absurd h (by simp)

theorem exprStage_num (env : Env) (gv : GlobalVars) {e : Val} (val : Val)
    (hnum : isNumLike e = true) : exprStage env gv e val = .ok e := by
  cases e <;> first | rfl | simp [isNumLike] at hnum

/-- C10: for a string value and a numeric expected value in a built-in
comparison, `compare` first coerces the string to a number — `float`
when it contains a `.`, `int` otherwise — and then behaves exactly as
on the coerced number, so `compare("5", {"gt": 3})` passes; and when
the string is not parseable, the `ValueError` is caught, a
type-mismatch message is appended to `fatal_err` when supplied, and
`compare` returns `False` instead of raising. -/
theorem c10_string_coercion (env : Env) (gv : GlobalVars) (pops : POps)
    (attr ctx : String) :
    (∀ fe, compare env gv [] (.strV "5") (.dictV [("gt", .intV 3)]) attr ctx
      fe = .ok (true, fe)) ∧
    (∀ (s : String) (k : String) (e v2 : Val) (fe : Option (List String)),
      isBuiltinOp (pyLower k) = true →
      lookupFn (pyLower k) pops = Option.none →
      isNumLike e = true →
      convertVal (.strV s) e = .ok v2 →
      compare env gv pops (.strV s) (.dictV [(k, e)]) attr ctx fe =
        compare env gv pops v2 (.dictV [(k, e)]) attr ctx fe) ∧
    (∀ (s : String) (k : String) (e : Val) (er : PyErr) (l : List String),
      isBuiltinOp (pyLower k) = true →
      lookupFn (pyLower k) pops = Option.none →
      isNumLike e = true →
      convertVal (.strV s) e = .error er →
      compare env gv pops (.strV s) (.dictV [(k, e)]) attr ctx (some l) =
        .ok (false, some (l ++
          [catchMsg ctx attr (pyLower k) er (.strV s) e]))) := by
  refine ⟨fun fe => rfl, ?_, ?_⟩
  · intro s k e v2 fe hb hplug hnum hconv
    have hdecEq : compareOpDecision env gv pops attr ctx k e (.strV s) =
        compareOpDecision env gv pops attr ctx k e v2 := by
      have hident := isBuiltinOp_ne_identical hb
      simp only [compareOpDecision, exprStage_num env gv _ hnum, hplug, hconv,
        convertVal_num_fixpoint hconv hnum]
      rw [if_neg hident]
      rw [if_neg hident]
    show compareItems env gv pops attr ctx [(k, e)] (.strV s) true fe = _
    simp only [compareItems, hdecEq]
    rfl
  · intro s k e er l hb hplug hnum hconv
    have hident := isBuiltinOp_ne_identical hb
    have hdec : compareOpDecision env gv pops attr ctx k e (.strV s) =
        .contO (.strV s) false
          (.amNotNone (catchMsg ctx attr (pyLower k) er (.strV s) e)) := by
      simp only [compareOpDecision, exprStage_num env gv _ hnum, hplug, hconv]
      rw [if_neg hident]
    show compareItems env gv pops attr ctx [(k, e)] (.strV s) true (some l) = _
    simp only [compareItems, hdec]
    rfl

/-- Witness for C10. -/
theorem c10_witness :
    compare env0 [] [] (.strV "5") (.dictV [("gt", .intV 3)]) "a" "c"
        Option.none = .ok (true, Option.none) ∧
    compare env0 [] [] (.strV "7") (.dictV [("gt", .intV 3)]) "a" "c"
        Option.none =
      compare env0 [] [] (.intV 7) (.dictV [("gt", .intV 3)]) "a" "c"
        Option.none ∧
    compare env0 [] [] (.strV "x.") (.dictV [("gt", .intV 3)]) "a" "c"
        (some []) =
      .ok (false, some ([] ++ [catchMsg "c" "a" "gt"
        (.valueError ("could not convert string to float: \x27x.\x27"))
        (.strV "x.") (.intV 3)])) :=
  ⟨(c10_string_coercion env0 [] [] "a" "c").1 Option.none,
   (c10_string_coercion env0 [] [] "a" "c").2.1 "7" "gt" (.intV 3) (.intV 7)
     Option.none rfl rfl rfl rfl,
   (c10_string_coercion env0 [] [] "a" "c").2.2 "x." "gt" (.intV 3)
     (.valueError ("could not convert string to float: \x27x.\x27")) [] rfl rfl
     rfl rfl⟩

end OSCheck

namespace LockModels

/-- `os.path.join(a, b)` for the simple absolute-directory cases the
lock code uses. -/
def pathJoin (a b : String) : String :=
  if a.data.getLast? = some '/' then a ++ b else a ++ "/" ++ b

namespace Memtracker

/-- The OS-dependent outcomes `create_lock` can observe: whether
`/run/lock/` exists (OL7+) versus `/var/run/` (OL6), whether the
memtracker lock directory exists, whether `os.makedirs` raises, and
whether the non-blocking exclusive `flock` raises (the lock is already
held). -/
structure World where
  runLockDirExists : Bool
  parentDirExists : Bool
  makedirsRaises : Bool
  openRaises : Bool
  flockRaises : Bool

/-- Result of running `create_lock` (memtracker.py): either the process
exits with a status after printing, crashes on `open`, continues
without a lock (directory creation failed), or continues holding the
lock. -/
inductive Outcome where
  | exitCode (prints : List String) (code : Int)
  | crashOpen
  | proceedNoLock (prints : List String)
  | proceedLocked (lockPath : String)
deriving Repr

/-- `create_lock()` from memtracker.py: pick the parent directory,
create it if missing (printing and returning on failure), open the
lock file and take a non-blocking exclusive `flock`; if the lock is
held, print the another-instance message and `sys.exit(1)`. -/
def create_lock (w : World) : Outcome :=
  let parent :=
    if w.runLockDirExists then pathJoin "/run/lock/" "memtracker"
    else pathJoin "/var/run/" "memtracker"
  if !w.parentDirExists && w.makedirsRaises then
    .proceedNoLock ["Could not create directory " ++ parent ++ ": <exception>"]
  else if w.openRaises then .crashOpen
  else if w.flockRaises then
    .exitCode
      ["Another instance of this script is running; please kill that instance if you want to restart the script."]
      1
  else .proceedLocked (pathJoin parent "lock")

/-- The module-level flow: `create_lock()` runs before the monitoring
loop; the second component records whether the main logic is
reached. -/
def runStartup (w : World) : Outcome × Bool :=
  let r := create_lock w
  (r,
    match r with
    | .exitCode _ _ => false
    | .crashOpen => false
    | _ => true)

end Memtracker

namespace Lkce

/-- OS-dependent inputs of the lkce `__main__` block. -/
structure World where
  euidIsRoot : Bool
  lockDirIsDir : Bool
  makedirsRaises : Bool
  openRaises : Bool
  flockRaises : Bool

/-- Outcome of the lkce `__main__` block before `main()`:
`sys.exit(1)` for non-root, `sys.exit()` (status 0) when the lock file
cannot be opened or the lock is held, a `NameError` crash when
`os.makedirs` fails (the handler formats the yet-unbound `LOCK_FILE`),
or reaching `main()`. -/
inductive Outcome where
  | exitWithCode (prints : List String) (code : Int)
  | exitPlain (prints : List String)
  | crashNameError
  | ranMain
deriving Repr

/-- The lkce `__main__` block (scripts/lkce.py): root check, lock
directory/file setup under `except OSError`, then the non-blocking
exclusive `flock`; if the lock is held, print the another-instance
message and `sys.exit()`. -/
def startup (w : World) : Outcome :=
  if !w.euidIsRoot then .exitWithCode ["Please run LKCE as the root user."] 1
  else if !w.lockDirIsDir && w.makedirsRaises then .crashNameError
  else if w.openRaises then
    .exitPlain ["Unable to open file: /var/run/oled-tools/lkce.lock"]
  else if w.flockRaises then
    .exitPlain ["error: another instance of lkce is running."]
  else .ranMain

end Lkce

/-! Claim C8 -/

/-- C8: memtracker and lkce prevent duplicate instances with a
non-blocking exclusive `flock` on their lock file: whenever the flock
step is reached (the preceding directory/open steps succeed) and
acquiring the lock raises, each tool prints its another-instance
message and exits without running its main logic — memtracker with exit
status 1, lkce via a plain `sys.exit()`. -/
theorem c8_duplicate_instance_lock :
    (∀ w : Memtracker.World,
      (w.parentDirExists = true ∨ w.makedirsRaises = false) →
      w.openRaises = false → w.flockRaises = true →
      Memtracker.runStartup w =
        (.exitCode
          ["Another instance of this script is running; please kill that instance if you want to restart the script."]
          1, false)) ∧
    (∀ w : Lkce.World,
      w.euidIsRoot = true →
      (w.lockDirIsDir = true ∨ w.makedirsRaises = false) →
      w.openRaises = false → w.flockRaises = true →
      Lkce.startup w = .exitPlain ["error: another instance of lkce is running."]) := by
  constructor
  · intro w h1 h2 h3
    obtain ⟨a, b, c, d, e⟩ := w
    simp only at h1 h2 h3
    subst h2 h3
    cases a <;> rcases h1 with h1 | h1 <;> subst h1 <;>
      first
      | rfl
      | (cases b <;> rfl)
  · intro w h1 h2 h3 h4
    obtain ⟨a, b, c, d, e⟩ := w
    simp only at h1 h2 h3 h4
    subst h1 h3 h4
    rcases h2 with h2 | h2 <;> subst h2 <;>
      first
      | rfl
      | (cases b <;> rfl)

/-- Witness for C8 at a concrete world in which the lock is already
held. -/
theorem c8_witness :
    Memtracker.runStartup
        ⟨true, true, false, false, true⟩ =
      (.exitCode
        ["Another instance of this script is running; please kill that instance if you want to restart the script."]
        1, false) ∧
    Lkce.startup ⟨true, true, false, false, true⟩ =
      .exitPlain ["error: another instance of lkce is running."] :=
  ⟨c8_duplicate_instance_lock.1 ⟨true, true, false, false, true⟩ (Or.inl rfl)
      rfl rfl,
   c8_duplicate_instance_lock.2 ⟨true, true, false, false, true⟩ rfl
      (Or.inl rfl) rfl rfl⟩

end LockModels
